import Mathlib

/-!
# Damerau-Levenshtein distance of `dameraulevenshtein.cpp`

A shallow embedding of the function `dameraulevenshtein` of
`src/dameraulevenshtein.cpp` and theorems about it.

* The workspace `initid->ptr` is a `List Int`; every read and write of a cell
  is bounds checked and the call yields `none` when an access falls outside
  the buffer (or outside one of the two strings).
* The C variables `n`, `m` (`longlong`) and `b`, `c`, `f`, `g`, `h`, `i`, `j`,
  `k`, `min` (`int`) and the cells are integers of `Int`. The definitions
  without a suffix compute with exact arithmetic: no value wraps around at 32
  or 64 bits.
* The `for` loops count upwards with a bound that the body never changes, so
  they are counted loops (`forLoop`).
* The definitions whose names end in `32` repeat the loops with the variables
  `k`, `h`, `min`, `b`, `c` and the cells as `int`s of 32 bits, as the source
  declares them: what is stored in them goes through `wrap32`. The two runs
  agree when the matrix has at most `2 ^ 31` cells (`dameraulevenshtein32_eq`);
  on a larger matrix the index `k` wraps around and the 32-bit run faults
  (`dameraulevenshtein32_beyond`).
* The elements of the two strings are of any type with decidable equality;
  the source compares `char`s.
-/

namespace DamerauLevenshtein

/-! ## Memory -/

/-- The read `d[k]` of a workspace cell; `none` outside the buffer. -/
def readCell (d : List Int) (k : Int) : Option Int :=
  if 0 ≤ k then d[k.toNat]? else none

/-- The write `d[k] = v` of a workspace cell; `none` outside the buffer. -/
def writeCell (d : List Int) (k v : Int) : Option (List Int) :=
  if 0 ≤ k ∧ k.toNat < d.length then some (d.set k.toNat v) else none

/-- The read `s[g]` of an element of an argument; `none` outside the string. -/
def readElem {α : Type} (s : List α) (g : Int) : Option α :=
  if 0 ≤ g then s[g.toNat]? else none

/-- The part of `UDF_ARGS` the function reads: the two argument pointers
(`none` is the NULL pointer) and the two declared lengths. -/
structure UDF_ARGS (α : Type) where
  args0 : Option (List α)
  args1 : Option (List α)
  lengths0 : Nat
  lengths1 : Nat

/-- The arguments of a call on two strings that are not NULL. -/
def UDF_ARGS.ofStrings {α : Type} (s t : List α) : UDF_ARGS α :=
  { args0 := some s, args1 := some t, lengths0 := s.length, lengths1 := t.length }

/-- The local variables that live across iterations, and the workspace. -/
structure Vars where
  d : List Int
  k : Int
  h : Int
  f : Int
  g : Int

/-! ## Control -/

/-- The loop `for (x = lo; x < lo + count; x++) body`, for a body that changes
neither `x` nor the bound. -/
def forLoop {σ : Type} (body : Int → σ → Option σ) : Nat → Int → σ → Option σ
  | 0, _, st => some st
  | c + 1, x, st => (body x st).bind (forLoop body c (x + 1))

/-- The loop `for (k = 0; k < n; k++) d[k] = k;` (lines 205-207). -/
def initRow (n : Int) (d : List Int) : Option (List Int) :=
  forLoop (fun k d => writeCell d k k) n.toNat 0 d

/-- The loop `for (k = 0; k < m; k++) d[k * n] = k;` (lines 210-212). -/
def initColumn (n m : Int) (d : List Int) : Option (List Int) :=
  forLoop (fun k d => writeCell d (k * n) k) m.toNat 0 d

/-- The "damerau inclusion" of lines 283-287, on the workspace in which
`d[k]` has just been written. The operands of `&&` are read left to right
and only as far as needed. -/
def damerauInclusion {α : Type} [DecidableEq α] (s t : List α) (n i j k f g : Int)
    (d : List Int) : Option (List Int) :=
  if i > 1 ∧ j > 1 then do
    let sg ← readElem s g
    let tf1 ← readElem t (f - 1)
    if sg = tf1 then do
      let sg1 ← readElem s (g - 1)
      let tf ← readElem t f
      if sg1 = tf then do
        let dd ← readCell d (k - 2 * n - 2)
        let min := dd + (if sg = tf then 0 else 1)
        let dk ← readCell d k
        if dk > min then writeCell d k min else pure d
      else pure d
    else pure d
  else pure d

/-- The body of the loop over `j` (lines 248-295). -/
def innerBody {α : Type} [DecidableEq α] (s t : List α) (n i j : Int) (v : Vars) :
    Option Vars := do
  let h := v.k
  let k := v.k + n
  let dh ← readCell v.d h
  let min := dh + 1
  let dk1 ← readCell v.d (k - 1)
  let b := dk1 + 1
  let dh1 ← readCell v.d (h - 1)
  let sg ← readElem s v.g
  let tf ← readElem t v.f
  let c := dh1 + (if sg = tf then 0 else 1)
  let min := if b < min then b else min
  let min := if c < min then c else min
  let d ← writeCell v.d k min
  let d ← damerauInclusion s t n i j k v.f v.g d
  pure { v with d := d, k := k, h := h, f := j }

/-- The body of the loop over `i` (lines 226-299). -/
def outerBody {α : Type} [DecidableEq α] (s t : List α) (n m i : Int) (v : Vars) :
    Option Vars := do
  let v ← forLoop (innerBody s t n i) (m - 1).toNat 1 { v with k := i, f := 0 }
  pure { v with g := i }

/-- Lines 201-300: both initialisation loops and the two nested loops, on
the incremented `n` and `m`. The variables `h` and `f` are written before
they are read; `k` leaves the second initialisation loop as `m`. -/
def fillMatrix {α : Type} [DecidableEq α] (s t : List α) (n m : Int) (d : List Int) :
    Option Vars := do
  let d ← initRow n d
  let d ← initColumn n m d
  forLoop (outerBody s t n m) (n - 1).toNat 1 { d := d, k := m, h := 0, f := 0, g := 0 }

/-- The function `dameraulevenshtein` (lines 157-308): the returned value and
the workspace it leaves behind, or `none` when an access is out of bounds. -/
def dameraulevenshtein {α : Type} [DecidableEq α] (d : List Int) (args : UDF_ARGS α) :
    Option (Int × List Int) :=
  let n : Int := match args.args0 with
    | none => 0
    | some _ => args.lengths0
  let m : Int := match args.args1 with
    | none => 0
    | some _ => args.lengths1
  if n ≠ 0 ∧ m ≠ 0 then
    match args.args0, args.args1 with
    | some s, some t => do
      let v ← fillMatrix s t (n + 1) (m + 1) d
      let r ← readCell v.d v.k
      pure (r, v.d)
    | _, _ => none
  else if n = 0 then some (m, d)
  else some (n, d)

/-- The value returned by a call on two strings that are not NULL. -/
def distance {α : Type} [DecidableEq α] (d : List Int) (s t : List α) : Option Int :=
  (dameraulevenshtein d (UDF_ARGS.ofStrings s t)).map Prod.fst

/-! ## The table of the recurrence -/

/-- The table `D` of the recurrence: `D(0,j) = j`, `D(i,0) = i` and, for
`i, j ≥ 1`, the minimum of `D(i-1,j)+1`, `D(i,j-1)+1` and `D(i-1,j-1)+cost`,
lowered to `D(i-2,j-2)+cost` when `i, j > 1`, `s[i-1] = t[j-2]` and
`s[i-2] = t[j-1]`; `cost` is `0` when `s[i-1] = t[j-1]` and `1` otherwise. -/
def D {α : Type} [DecidableEq α] (s t : List α) : Nat → Nat → Nat
  | 0, j => j
  | i + 1, 0 => i + 1
  | i + 1, j + 1 =>
    if 0 < i ∧ 0 < j ∧ s[i]? = t[j - 1]? ∧ s[i - 1]? = t[j]? then
      min (min (min (D s t i (j + 1) + 1) (D s t (i + 1) j + 1))
            (D s t i j + if s[i]? = t[j]? then 0 else 1))
        (D s t (i - 1) (j - 1) + if s[i]? = t[j]? then 0 else 1)
    else
      min (min (D s t i (j + 1) + 1) (D s t (i + 1) j + 1))
        (D s t i j + if s[i]? = t[j]? then 0 else 1)
termination_by i j => i + j
decreasing_by all_goals simp_wf; all_goals omega

/-- The state in which the body of the loop over `j` is entered for the cell
`(i, j)`: the run of `fillMatrix` cut off after `i - 1` rounds of the loop over
`i` and `j - 1` rounds of the loop over `j`. -/
def cellEntry {α : Type} [DecidableEq α] (s t : List α) (n m : Int) (d : List Int)
    (i j : Nat) : Option Vars := do
  let d ← initRow n d
  let d ← initColumn n m d
  let v ← forLoop (outerBody s t n m) (i - 1) 1 { d := d, k := m, h := 0, f := 0, g := 0 }
  forLoop (innerBody s t n i) (j - 1) 1 { v with k := i, f := 0 }

/-- The rest of the run of `fillMatrix` once the body of the loop over `j` has
run for the cell `(i, j)`: the remaining rounds of the loop over `j`, the
assignment `g = i`, and the remaining rounds of the loop over `i`. -/
def afterCell {α : Type} [DecidableEq α] (s t : List α) (n m : Int) (i j : Nat) (v : Vars) :
    Option Vars := do
  let v ← forLoop (innerBody s t n i) ((m - 1).toNat - j) ((j : Int) + 1) v
  forLoop (outerBody s t n m) ((n - 1).toNat - i) ((i : Int) + 1) { v with g := i }

/-! ## Edits -/

/-- One elementary edit: insert one element, delete one element, substitute
one element by another one, or swap two adjacent elements. -/
inductive Edit {α : Type} : List α → List α → Prop
  | insert (u v : List α) (a : α) : Edit (u ++ v) (u ++ a :: v)
  | delete (u v : List α) (a : α) : Edit (u ++ a :: v) (u ++ v)
  | substitute (u v : List α) (a b : α) : a ≠ b → Edit (u ++ a :: v) (u ++ b :: v)
  | swap (u v : List α) (a b : α) : Edit (u ++ a :: b :: v) (u ++ b :: a :: v)

/-- A chain of `k` elementary edits leading from the first sequence to the
second. -/
inductive Chain {α : Type} : Nat → List α → List α → Prop
  | refl (s : List α) : Chain 0 s s
  | step {k : Nat} {s u t : List α} : Edit s u → Chain k u t → Chain (k + 1) s t

/-- A restricted edit script of `k` elementary edits from the first sequence
to the second: the two sequences are worked through from left to right, and
every element is kept, deleted, inserted, substituted or swapped with its
neighbour exactly once, so that no element is edited twice. -/
inductive Script {α : Type} : Nat → List α → List α → Prop
  | nil : Script 0 [] []
  | keep {k : Nat} {s t : List α} (a : α) : Script k s t → Script k (s ++ [a]) (t ++ [a])
  | delete {k : Nat} {s t : List α} (a : α) : Script k s t → Script (k + 1) (s ++ [a]) t
  | insert {k : Nat} {s t : List α} (b : α) : Script k s t → Script (k + 1) s (t ++ [b])
  | substitute {k : Nat} {s t : List α} (a b : α) :
      a ≠ b → Script k s t → Script (k + 1) (s ++ [a]) (t ++ [b])
  | swap {k : Nat} {s t : List α} (a b : α) :
      Script k s t → Script (k + 1) (s ++ [a, b]) (t ++ [b, a])

/-! ## The plain Levenshtein recurrence -/

/-- The body of the loop over `j` without the "damerau inclusion": the plain
Levenshtein recurrence that the comment of lines 236-239 quotes. -/
def levenshteinBody {α : Type} [DecidableEq α] (s t : List α) (n j : Int) (v : Vars) :
    Option Vars := do
  let h := v.k
  let k := v.k + n
  let dh ← readCell v.d h
  let min := dh + 1
  let dk1 ← readCell v.d (k - 1)
  let b := dk1 + 1
  let dh1 ← readCell v.d (h - 1)
  let sg ← readElem s v.g
  let tf ← readElem t v.f
  let c := dh1 + (if sg = tf then 0 else 1)
  let min := if b < min then b else min
  let min := if c < min then c else min
  let d ← writeCell v.d k min
  pure { v with d := d, k := k, h := h, f := j }

/-- The loop over `i` around `levenshteinBody`. -/
def levenshteinOuterBody {α : Type} [DecidableEq α] (s t : List α) (n m i : Int) (v : Vars) :
    Option Vars := do
  let v ← forLoop (levenshteinBody s t n) (m - 1).toNat 1 { v with k := i, f := 0 }
  pure { v with g := i }

/-- The matrix of the plain recurrence: `fillMatrix` with
`levenshteinOuterBody`. -/
def levenshteinFill {α : Type} [DecidableEq α] (s t : List α) (n m : Int) (d : List Int) :
    Option Vars := do
  let d ← initRow n d
  let d ← initColumn n m d
  forLoop (levenshteinOuterBody s t n m) (n - 1).toNat 1
    { d := d, k := m, h := 0, f := 0, g := 0 }

/-- The plain Levenshtein distance of two strings: `dameraulevenshtein` on
two strings that are not NULL, without the "damerau inclusion". -/
def levenshtein {α : Type} [DecidableEq α] (d : List Int) (s t : List α) : Option Int :=
  let n : Int := s.length
  let m : Int := t.length
  if n ≠ 0 ∧ m ≠ 0 then do
    let v ← levenshteinFill s t (n + 1) (m + 1) d
    readCell v.d v.k
  else if n = 0 then some m
  else some n

/-! ## The variant with a fixed penalty for the swap -/

/-- The "damerau inclusion" with the candidate `d[k - 2 * n - 2] + 1` in the
place of `d[k - 2 * n - 2] + cost`; everything else is `damerauInclusion`. -/
def damerauInclusionFixed {α : Type} [DecidableEq α] (s t : List α) (n i j k f g : Int)
    (d : List Int) : Option (List Int) :=
  if i > 1 ∧ j > 1 then do
    let sg ← readElem s g
    let tf1 ← readElem t (f - 1)
    if sg = tf1 then do
      let sg1 ← readElem s (g - 1)
      let tf ← readElem t f
      if sg1 = tf then do
        let dd ← readCell d (k - 2 * n - 2)
        let min := dd + 1
        let dk ← readCell d k
        if dk > min then writeCell d k min else pure d
      else pure d
    else pure d
  else pure d

/-- The body of the loop over `j` with `damerauInclusionFixed`. -/
def innerBodyFixed {α : Type} [DecidableEq α] (s t : List α) (n i j : Int) (v : Vars) :
    Option Vars := do
  let h := v.k
  let k := v.k + n
  let dh ← readCell v.d h
  let min := dh + 1
  let dk1 ← readCell v.d (k - 1)
  let b := dk1 + 1
  let dh1 ← readCell v.d (h - 1)
  let sg ← readElem s v.g
  let tf ← readElem t v.f
  let c := dh1 + (if sg = tf then 0 else 1)
  let min := if b < min then b else min
  let min := if c < min then c else min
  let d ← writeCell v.d k min
  let d ← damerauInclusionFixed s t n i j k v.f v.g d
  pure { v with d := d, k := k, h := h, f := j }

/-- The body of the loop over `i` with `innerBodyFixed`. -/
def outerBodyFixed {α : Type} [DecidableEq α] (s t : List α) (n m i : Int) (v : Vars) :
    Option Vars := do
  let v ← forLoop (innerBodyFixed s t n i) (m - 1).toNat 1 { v with k := i, f := 0 }
  pure { v with g := i }

/-- The matrix of the variant: `fillMatrix` with `outerBodyFixed`. -/
def fillMatrixFixed {α : Type} [DecidableEq α] (s t : List α) (n m : Int) (d : List Int) :
    Option Vars := do
  let d ← initRow n d
  let d ← initColumn n m d
  forLoop (outerBodyFixed s t n m) (n - 1).toNat 1 { d := d, k := m, h := 0, f := 0, g := 0 }

/-- The variant algorithm: `dameraulevenshtein` with `fillMatrixFixed`. -/
def dameraulevenshteinFixed {α : Type} [DecidableEq α] (d : List Int) (args : UDF_ARGS α) :
    Option (Int × List Int) :=
  let n : Int := match args.args0 with
    | none => 0
    | some _ => args.lengths0
  let m : Int := match args.args1 with
    | none => 0
    | some _ => args.lengths1
  if n ≠ 0 ∧ m ≠ 0 then
    match args.args0, args.args1 with
    | some s, some t => do
      let v ← fillMatrixFixed s t (n + 1) (m + 1) d
      let r ← readCell v.d v.k
      pure (r, v.d)
    | _, _ => none
  else if n = 0 then some (m, d)
  else some (n, d)

/-! ## The 32-bit variables -/

/-- The value that a 32-bit `int` holds after a result `x` is stored in it,
with wrap-around modulo `2 ^ 32`. -/
def wrap32 (x : Int) : Int :=
  (x + 2147483648) % 4294967296 - 2147483648

/-- The "damerau inclusion" with `min` as a 32-bit `int`. The index
`k - 2 * n - 2` is computed in `longlong`, as `n` is one. -/
def damerauInclusion32 {α : Type} [DecidableEq α] (s t : List α) (n i j k f g : Int)
    (d : List Int) : Option (List Int) :=
  if i > 1 ∧ j > 1 then do
    let sg ← readElem s g
    let tf1 ← readElem t (wrap32 (f - 1))
    if sg = tf1 then do
      let sg1 ← readElem s (wrap32 (g - 1))
      let tf ← readElem t f
      if sg1 = tf then do
        let dd ← readCell d (k - 2 * n - 2)
        let min := wrap32 (dd + (if sg = tf then 0 else 1))
        let dk ← readCell d k
        if dk > min then writeCell d k min else pure d
      else pure d
    else pure d
  else pure d

/-- The body of the loop over `j` with `k`, `h`, `min`, `b`, `c` and the cells
as 32-bit `int`s: every result stored in one of them, and every index
computed in `int`, goes through `wrap32`. The counters `i`, `j`, `f` and `g`
are exact, which they are for strings of less than `2 ^ 31 - 1` elements. -/
def innerBody32 {α : Type} [DecidableEq α] (s t : List α) (n i j : Int) (v : Vars) :
    Option Vars := do
  let h := v.k
  let k := wrap32 (v.k + n)
  let dh ← readCell v.d h
  let min := wrap32 (dh + 1)
  let dk1 ← readCell v.d (wrap32 (k - 1))
  let b := wrap32 (dk1 + 1)
  let dh1 ← readCell v.d (wrap32 (h - 1))
  let sg ← readElem s v.g
  let tf ← readElem t v.f
  let c := wrap32 (dh1 + (if sg = tf then 0 else 1))
  let min := if b < min then b else min
  let min := if c < min then c else min
  let d ← writeCell v.d k min
  let d ← damerauInclusion32 s t n i j k v.f v.g d
  pure { v with d := d, k := k, h := h, f := j }

/-- The body of the loop over `i` with `innerBody32`. -/
def outerBody32 {α : Type} [DecidableEq α] (s t : List α) (n m i : Int) (v : Vars) :
    Option Vars := do
  let v ← forLoop (innerBody32 s t n i) (m - 1).toNat 1 { v with k := i, f := 0 }
  pure { v with g := i }

/-- The matrix of the 32-bit run: `fillMatrix` with `outerBody32`. In the
initialisation loops `k` counts up to `n` and to `m`, which it does without
wrapping for `n` and `m` below `2 ^ 31`, and `k * n` is computed in
`longlong`. -/
def fillMatrix32 {α : Type} [DecidableEq α] (s t : List α) (n m : Int) (d : List Int) :
    Option Vars := do
  let d ← initRow n d
  let d ← initColumn n m d
  forLoop (outerBody32 s t n m) (n - 1).toNat 1 { d := d, k := m, h := 0, f := 0, g := 0 }

/-- The function `dameraulevenshtein` with its `int` variables of 32 bits. -/
def dameraulevenshtein32 {α : Type} [DecidableEq α] (d : List Int) (args : UDF_ARGS α) :
    Option (Int × List Int) :=
  let n : Int := match args.args0 with
    | none => 0
    | some _ => args.lengths0
  let m : Int := match args.args1 with
    | none => 0
    | some _ => args.lengths1
  if n ≠ 0 ∧ m ≠ 0 then
    match args.args0, args.args1 with
    | some s, some t => do
      let v ← fillMatrix32 s t (n + 1) (m + 1) d
      let r ← readCell v.d v.k
      pure (r, v.d)
    | _, _ => none
  else if n = 0 then some (m, d)
  else some (n, d)

/-- The value returned by the 32-bit call on two strings that are not NULL. -/
def distance32 {α : Type} [DecidableEq α] (d : List Int) (s t : List α) : Option Int :=
  (dameraulevenshtein32 d (UDF_ARGS.ofStrings s t)).map Prod.fst

/-- The state in which the 32-bit run enters the body of the loop over `j` for
the cell `(i, j)`: the run of `fillMatrix32` cut off after `i - 1` rounds of the
loop over `i` and `j - 1` rounds of the loop over `j`. -/
def cellEntry32 {α : Type} [DecidableEq α] (s t : List α) (n m : Int) (d : List Int)
    (i j : Nat) : Option Vars := do
  let d ← initRow n d
  let d ← initColumn n m d
  let v ← forLoop (outerBody32 s t n m) (i - 1) 1 { d := d, k := m, h := 0, f := 0, g := 0 }
  forLoop (innerBody32 s t n i) (j - 1) 1 { v with k := i, f := 0 }

/-- The rest of the run of `fillMatrix32` once the body of the loop over `j`
has run for the cell `(i, j)`. -/
def afterCell32 {α : Type} [DecidableEq α] (s t : List α) (n m : Int) (i j : Nat) (v : Vars) :
    Option Vars := do
  let v ← forLoop (innerBody32 s t n i) ((m - 1).toNat - j) ((j : Int) + 1) v
  forLoop (outerBody32 s t n m) ((n - 1).toNat - i) ((i : Int) + 1) { v with g := i }

/-! ## Initialisation by the host -/

/-- Modelled from the spec: the type of an argument as the host passes it in
`args->arg_type`, a string ("sequence-typed") or not. The enumeration is
declared in the MySQL headers, which are not part of the sources; the source
names `STRING_RESULT` only. -/
inductive Item_result
  | STRING_RESULT
  | REAL_RESULT
  | INT_RESULT
  | ROW_RESULT
  | DECIMAL_RESULT
  deriving DecidableEq

/-- The fields of `UDF_INIT` that `dameraulevenshtein_init` sets. -/
structure UDF_INIT where
  maybe_null : Bool
  max_length : Nat
  ptr : List Int

/-- The value that an `unsigned long` of 64 bits holds after a result `x` is
stored in it. -/
def wrap64 (x : Nat) : Nat :=
  x % 18446744073709551616

/-- The function `dameraulevenshtein_init` (lines 71-126): an error message,
or the initialised `UDF_INIT`. The size `(lengths[0] + 1) * (lengths[1] + 1)` is
computed in `unsigned long`. The allocator `alloc` stands for `new int[...]`:
it yields a buffer, or `none` when the allocation fails; `new` then throws
`std::bad_alloc`, which leaves the function and is shown as the error of that
name, so the test `workspace == NULL` of lines 113-117 never holds. -/
def dameraulevenshtein_init (alloc : Nat → Option (List Int)) (arg_count : Nat)
    (arg_type : List Item_result) (lengths0 lengths1 : Nat) : Except String UDF_INIT :=
  if arg_count ≠ 2 then
    Except.error "DAMERAULEVENSHTEIN() requires two arguments"
  else if arg_type[0]? ≠ some Item_result.STRING_RESULT ∨
      arg_type[1]? ≠ some Item_result.STRING_RESULT then
    Except.error "DAMERAULEVENSHTEIN() requires two string arguments"
  else
    match alloc (wrap64 (wrap64 (lengths0 + 1) * wrap64 (lengths1 + 1))) with
    | none => Except.error "std::bad_alloc"
    | some workspace => Except.ok { max_length := 3, maybe_null := false, ptr := workspace }

/-! ## Loop invariants -/

/-- The invariant of the loop over `j` in round `i` of the loop over `i`,
after `q` rounds: the index `k` is that of the cell `(i, q)`, `g` is `i - 1`,
`f` is `q`, and row `0`, column `0`, the columns before `i` and the cells
`(i, 0), ..., (i, q)` hold the values of the table `D`. The workspace has `L`
cells. -/
def InnerInv {α : Type} [DecidableEq α] (s t : List α) (L i q : Nat) (v : Vars) : Prop :=
  v.d.length = L ∧ v.k = ((q * (s.length + 1) + i : Nat) : Int) ∧ v.g + 1 = (i : Int) ∧
    v.f = (q : Int) ∧
    ∀ i' j', i' < s.length + 1 → j' < t.length + 1 →
      (i' = 0 ∨ j' = 0 ∨ i' < i ∨ (i' = i ∧ j' ≤ q)) →
      v.d[j' * (s.length + 1) + i']? = some ((D s t i' j' : Nat) : Int)

/-- The invariant of the loop over `i` after `r` rounds: `g` is `r`, the index
`k` is that of the cell `(r, m)` once a round has run, and row `0`, column `0`
and the columns `1, ..., r` hold the values of the table `D`. -/
def OuterInv {α : Type} [DecidableEq α] (s t : List α) (L r : Nat) (v : Vars) : Prop :=
  v.d.length = L ∧ v.g = (r : Int) ∧
    (0 < r → v.k = ((t.length * (s.length + 1) + r : Nat) : Int)) ∧
    ∀ i' j', i' < s.length + 1 → j' < t.length + 1 →
      (i' = 0 ∨ j' = 0 ∨ i' ≤ r) →
      v.d[j' * (s.length + 1) + i']? = some ((D s t i' j' : Nat) : Int)

/-! ## Cells and indices -/

theorem readCell_nat (d : List Int) (k : Nat) : readCell d (k : Int) = d[k]? := by
  simp [readCell]

theorem readCell_of_eq (d : List Int) (x : Int) (k : Nat) (h : x = (k : Int)) :
    readCell d x = d[k]? := by
  subst h; exact readCell_nat d k

theorem writeCell_of_eq (d : List Int) (x v : Int) (k : Nat) (h : x = (k : Int))
    (hk : k < d.length) : writeCell d x v = some (d.set k v) := by
  subst h; simp [writeCell, hk]

theorem readElem_of_eq {α : Type} (s : List α) (x : Int) (k : Nat) (h : x = (k : Int)) :
    readElem s x = s[k]? := by
  subst h; simp [readElem]

theorem flat_lt {N M i j : Nat} (hi : i < N) (hj : j < M) : j * N + i < N * M := by
  have h1 : (j + 1) * N ≤ M * N := Nat.mul_le_mul_right N hj
  rw [Nat.succ_mul] at h1
  rw [Nat.mul_comm N M]
  omega

theorem flat_inj {N i j i' j' : Nat} (hi : i < N) (hi' : i' < N)
    (h : j * N + i = j' * N + i') : i = i' ∧ j = j' := by
  rcases Nat.lt_trichotomy j j' with hlt | heq | hgt
  · have h1 : (j + 1) * N ≤ j' * N := Nat.mul_le_mul_right N hlt
    rw [Nat.succ_mul] at h1
    omega
  · subst heq
    omega
  · have h1 : (j' + 1) * N ≤ j * N := Nat.mul_le_mul_right N hgt
    rw [Nat.succ_mul] at h1
    omega

/-! ## Counted loops -/

theorem forLoop_add {σ : Type} (body : Int → σ → Option σ) (a b : Nat) (x : Int) (st : σ) :
    forLoop body (a + b) x st = (forLoop body a x st).bind (forLoop body b (x + a)) := by
  induction a generalizing x st with
  | zero => simp [forLoop]
  | succ a ih =>
    rw [Nat.add_right_comm]
    simp only [forLoop]
    cases hb : body x st with
    | none => simp
    | some st' =>
      simp only [Option.some_bind, Option.bind_eq_bind]
      rw [ih]
      have he : x + 1 + (a : Int) = x + ((a + 1 : Nat) : Int) := by omega
      rw [he]

theorem forLoop_invariant {σ : Type} (body : Int → σ → Option σ) (P : Nat → σ → Prop)
    (lo : Int) (c : Nat) :
    ∀ (q : Nat) (st : σ), P q st →
      (∀ r st, q ≤ r → r < q + c → P r st → ∃ st', body (lo + r) st = some st' ∧ P (r + 1) st') →
      ∃ st', forLoop body c (lo + q) st = some st' ∧ P (q + c) st' := by
  induction c with
  | zero => intro q st h0 _; exact ⟨st, rfl, h0⟩
  | succ c ih =>
    intro q st h0 hstep
    obtain ⟨st1, hb, h1⟩ := hstep q st (Nat.le_refl q) (by omega) h0
    have hrest := ih (q + 1) st1 h1 (fun r st hr hr' hP => hstep r st (by omega) (by omega) hP)
    obtain ⟨st2, hl, h2⟩ := hrest
    refine ⟨st2, ?_, ?_⟩
    · simp only [forLoop, hb, Option.some_bind, Option.bind_eq_bind]
      rw [← hl]
      congr 1
      omega
    · have he : q + 1 + c = q + (c + 1) := by omega
      rw [he] at h2
      exact h2

theorem forLoop_split {σ : Type} (body : Int → σ → Option σ) (c a : Nat) (x : Int) (st : σ)
    (ha1 : 1 ≤ a) (ha : a ≤ c) :
    forLoop body c x st = (forLoop body (a - 1) x st).bind
      (fun st1 => (body (x + a - 1) st1).bind (forLoop body (c - a) (x + a))) := by
  have hc : c = (a - 1) + ((c - a) + 1) := by omega
  rw [hc, forLoop_add]
  have h1 : a - 1 + (c - a + 1) - a = c - a := by omega
  have h2 : x + ((a - 1 : Nat) : Int) = x + a - 1 := by omega
  rw [h1, h2]
  congr 1
  funext st1
  simp only [forLoop]
  have h3 : x + (a : Int) - 1 + 1 = x + a := by omega
  rw [h3]

/-- The run of `fillMatrix` passes through the state `cellEntry` of every cell
`(i, j)`: it is that state, followed by the body of the loop over `j` for the
cell, followed by the rest of the two loops. -/
theorem fillMatrix_through_cell {α : Type} [DecidableEq α] (s t : List α) (n m : Int)
    (d : List Int) (i j : Nat) (hi1 : 1 ≤ i) (hi : i ≤ (n - 1).toNat) (hj1 : 1 ≤ j)
    (hj : j ≤ (m - 1).toNat) :
    fillMatrix s t n m d = (cellEntry s t n m d i j).bind
      (fun v => (innerBody s t n i j v).bind (afterCell s t n m i j)) := by
  unfold fillMatrix cellEntry
  simp only [Option.bind_eq_bind]
  cases initRow n d with
  | none => rfl
  | some d1 =>
    simp only [Option.some_bind]
    cases initColumn n m d1 with
    | none => rfl
    | some d2 =>
      simp only [Option.some_bind]
      rw [forLoop_split _ _ i 1 _ hi1 hi, Option.bind_assoc]
      congr 1
      funext v
      have e1 : (1 : Int) + (i : Int) - 1 = i := by omega
      have e2 : (1 : Int) + (i : Int) = i + 1 := by omega
      rw [e1, e2]
      simp only [outerBody, Option.bind_eq_bind, Option.pure_def]
      rw [forLoop_split _ _ j 1 _ hj1 hj]
      have e3 : (1 : Int) + (j : Int) - 1 = j := by omega
      have e4 : (1 : Int) + (j : Int) = j + 1 := by omega
      rw [e3, e4]
      simp only [Option.bind_assoc, afterCell, Option.bind_eq_bind]
      rfl

/-! ## The initialisation loops -/

theorem initRow_spec (N : Nat) (d : List Int) (hL : N ≤ d.length) :
    ∃ d', initRow (N : Int) d = some d' ∧ d'.length = d.length ∧
      ∀ i, i < N → d'[i]? = some (i : Int) := by
  have h := forLoop_invariant (fun k d => writeCell d k k)
    (fun q d' => d'.length = d.length ∧ ∀ i, i < q → d'[i]? = some (i : Int)) 0 N 0 d
    ⟨rfl, fun i hi => absurd hi (Nat.not_lt_zero i)⟩
    (by
      intro r d1 _ hr ⟨hlen, hrow⟩
      simp only [zero_add]
      refine ⟨d1.set r r, ?_, ?_, ?_⟩
      · exact writeCell_of_eq d1 (r : Int) (r : Int) r rfl (by omega)
      · simp [hlen]
      · intro i hi
        rw [List.getElem?_set]
        by_cases hir : r = i
        · rw [if_pos hir, if_pos (show r < d1.length by omega), hir]
        · rw [if_neg hir]
          exact hrow i (by omega))
  simpa [initRow] using h

theorem initColumn_spec (N M : Nat) (hN : 0 < N) (d : List Int) (hL : N * M ≤ d.length)
    (hrow : ∀ i, i < N → d[i]? = some (i : Int)) :
    ∃ d', initColumn (N : Int) (M : Int) d = some d' ∧ d'.length = d.length ∧
      (∀ i, i < N → d'[i]? = some (i : Int)) ∧
      ∀ j, j < M → d'[j * N]? = some (j : Int) := by
  have h := forLoop_invariant (fun k d => writeCell d (k * (N : Int)) k)
    (fun q d' => d'.length = d.length ∧ (∀ i, i < N → d'[i]? = some (i : Int)) ∧
      ∀ j, j < q → d'[j * N]? = some (j : Int)) 0 M 0 d
    ⟨rfl, hrow, fun j hj => absurd hj (Nat.not_lt_zero j)⟩
    (by
      intro r d1 _ hr ⟨hlen, hrow1, hcol⟩
      have hlt : r * N + 0 < N * M := flat_lt hN (by omega)
      simp only [zero_add]
      refine ⟨d1.set (r * N) r, ?_, ?_, ?_, ?_⟩
      · exact writeCell_of_eq d1 ((r : Int) * (N : Int)) (r : Int) (r * N)
          (by push_cast; rfl) (by omega)
      · simp [hlen]
      · intro i hi
        rw [List.getElem?_set]
        by_cases hir : r * N = i
        · have h0 := @flat_inj N 0 r i 0 hN hi
            (by omega)
          rw [if_pos hir, if_pos (show r * N < d1.length by omega)]
          have h1 := h0.1
          have h2 := h0.2
          subst h1
          subst h2
          rfl
        · rw [if_neg hir]
          exact hrow1 i hi
      · intro j hj
        rw [List.getElem?_set]
        by_cases hjr : r * N = j * N
        · have h0 := @flat_inj N 0 r 0 j hN hN
            (by omega)
          rw [if_pos hjr, if_pos (show r * N < d1.length by omega)]
          rw [h0.2]
        · rw [if_neg hjr]
          have hne : j ≠ r := fun h => hjr (by rw [h])
          exact hcol j (by omega))
  simpa [initColumn] using h

theorem D_zero_left {α : Type} [DecidableEq α] (s t : List α) (j : Nat) : D s t 0 j = j := by
  rw [D]

theorem D_zero_right {α : Type} [DecidableEq α] (s t : List α) (i : Nat) : D s t i 0 = i := by
  cases i with
  | zero => rw [D]
  | succ i => rw [D]

theorem D_succ {α : Type} [DecidableEq α] (s t : List α) (i j : Nat) :
    D s t (i + 1) (j + 1) =
      if 0 < i ∧ 0 < j ∧ s[i]? = t[j - 1]? ∧ s[i - 1]? = t[j]? then
        min (min (min (D s t i (j + 1) + 1) (D s t (i + 1) j + 1))
              (D s t i j + if s[i]? = t[j]? then 0 else 1))
          (D s t (i - 1) (j - 1) + if s[i]? = t[j]? then 0 else 1)
      else
        min (min (D s t i (j + 1) + 1) (D s t (i + 1) j + 1))
          (D s t i j + if s[i]? = t[j]? then 0 else 1) := by
  rw [D]

/-! ## The body of the loop over `j` -/

theorem min3_cast (x y z c : Nat) :
    (if (z : Int) + (c : Int) <
        (if (y : Int) + 1 < (x : Int) + 1 then (y : Int) + 1 else (x : Int) + 1)
      then (z : Int) + (c : Int)
      else if (y : Int) + 1 < (x : Int) + 1 then (y : Int) + 1 else (x : Int) + 1) =
      ((min (min (y + 1) (x + 1)) (z + c) : Nat) : Int) := by
  simp only [min_def]
  split_ifs <;> omega

theorem damerauInclusion_spec {α : Type} [DecidableEq α] (s t : List α) (N i0 q : Nat)
    (hi : i0 < s.length) (hq : q < t.length) (d1 : List Int) (K : Nat) (hK : K < d1.length)
    (base : Nat) (hbase : d1[K]? = some (base : Int))
    (hdiag : 0 < i0 → 0 < q → 2 * N + 2 ≤ K ∧
      d1[K - 2 * N - 2]? = some ((D s t (i0 - 1) (q - 1) : Nat) : Int)) :
    ∃ d2, damerauInclusion s t (N : Int) ((i0 + 1 : Nat) : Int) (1 + (q : Int)) (K : Int)
          (q : Int) (i0 : Int) d1 = some d2 ∧
      d2.length = d1.length ∧ (∀ x, x ≠ K → d2[x]? = d1[x]?) ∧
      d2[K]? = some (((if 0 < i0 ∧ 0 < q ∧ s[i0]? = t[q - 1]? ∧ s[i0 - 1]? = t[q]? then
          min base (D s t (i0 - 1) (q - 1) + if s[i0]? = t[q]? then 0 else 1)
        else base : Nat)) : Int) := by
  have hsi : s[i0]? = some (s[i0]) := List.getElem?_eq_getElem hi
  have htq : t[q]? = some (t[q]) := List.getElem?_eq_getElem hq
  have e1 : readElem s (i0 : Int) = some (s[i0]) := by
    rw [readElem_of_eq s _ i0 rfl, hsi]
  have e2 : readElem t (q : Int) = some (t[q]) := by
    rw [readElem_of_eq t _ q rfl, htq]
  unfold damerauInclusion
  by_cases hc : 0 < i0 ∧ 0 < q
  · obtain ⟨hi0, hq0⟩ := hc
    obtain ⟨hKge, hdg⟩ := hdiag hi0 hq0
    have hsi1 : s[i0 - 1]? = some (s[i0 - 1]) := List.getElem?_eq_getElem (by omega)
    have htq1 : t[q - 1]? = some (t[q - 1]) := List.getElem?_eq_getElem (by omega)
    have e3 : readElem t ((q : Int) - 1) = some (t[q - 1]) := by
      rw [readElem_of_eq t _ (q - 1) (by omega), htq1]
    have e4 : readElem s ((i0 : Int) - 1) = some (s[i0 - 1]) := by
      rw [readElem_of_eq s _ (i0 - 1) (by omega), hsi1]
    have r1 : readCell d1 ((K : Int) - 2 * (N : Int) - 2)
        = some ((D s t (i0 - 1) (q - 1) : Nat) : Int) := by
      rw [readCell_of_eq d1 _ (K - 2 * N - 2) (by omega), hdg]
    have r2 : readCell d1 (K : Int) = some (base : Int) := by
      rw [readCell_nat, hbase]
    rw [if_pos (by constructor <;> omega)]
    simp only [e1, e2, e3, e4, r1, r2, Option.bind_eq_bind, Option.some_bind, Option.pure_def,
      hsi, htq, hsi1, htq1, Option.some.injEq, hi0, hq0, true_and]
    generalize D s t (i0 - 1) (q - 1) = dd
    have hcost : (((if s[i0] = t[q] then 0 else 1 : Nat)) : Int)
        = if s[i0] = t[q] then 0 else 1 := by
      split_ifs <;> rfl
    rw [← hcost]
    generalize (if s[i0] = t[q] then 0 else 1 : Nat) = c
    by_cases h12 : s[i0] = t[q - 1] ∧ s[i0 - 1] = t[q]
    · rw [if_pos h12.1, if_pos h12.2, if_pos h12]
      by_cases hgt : (base : Int) > (dd : Int) + (c : Int)
      · rw [if_pos hgt]
        refine ⟨d1.set K ((dd : Int) + (c : Int)),
          writeCell_of_eq d1 _ _ K rfl hK, by simp, ?_, ?_⟩
        · intro x hx
          rw [List.getElem?_set, if_neg (Ne.symm hx)]
        · rw [List.getElem?_set, if_pos rfl, if_pos hK]
          congr 1
          omega
      · rw [if_neg hgt]
        refine ⟨d1, rfl, rfl, fun _ _ => rfl, ?_⟩
        rw [hbase]
        congr 1
        omega
    · rw [if_neg h12]
      refine ⟨d1, ?_, rfl, fun _ _ => rfl, hbase⟩
      by_cases h1 : s[i0] = t[q - 1]
      · rw [if_pos h1, if_neg (fun h2 => h12 ⟨h1, h2⟩)]
      · rw [if_neg h1]
  · have hc' : ¬ (((i0 + 1 : Nat) : Int) > 1 ∧ 1 + (q : Int) > 1) := by
      intro h
      apply hc
      constructor <;> omega
    rw [if_neg hc', if_neg (fun h => hc ⟨h.1, h.2.1⟩)]
    exact ⟨d1, rfl, rfl, fun _ _ => rfl, hbase⟩

theorem innerBody_spec {α : Type} [DecidableEq α] (s t : List α) (L i0 q : Nat)
    (hi : i0 < s.length) (hq : q < t.length) (hL : (s.length + 1) * (t.length + 1) ≤ L)
    (v : Vars) (hv : InnerInv s t L (i0 + 1) q v) :
    ∃ v', innerBody s t ((s.length + 1 : Nat) : Int) ((i0 + 1 : Nat) : Int) (1 + (q : Int)) v
        = some v' ∧ InnerInv s t L (i0 + 1) (q + 1) v' ∧ v'.h = v.k := by
  obtain ⟨d, k, h, f, g⟩ := v
  obtain ⟨hlen, hk, hg, hf, hknown⟩ := hv
  simp only at hlen hk hg hf hknown
  have hg' : g = (i0 : Int) := by omega
  subst hk hf hg'
  have hsi : s[i0]? = some (s[i0]) := List.getElem?_eq_getElem hi
  have htq : t[q]? = some (t[q]) := List.getElem?_eq_getElem hq
  have e1 : readElem s (i0 : Int) = some (s[i0]) := by
    rw [readElem_of_eq s _ i0 rfl, hsi]
  have e2 : readElem t (q : Int) = some (t[q]) := by
    rw [readElem_of_eq t _ q rfl, htq]
  have r1 : readCell d ((q * (s.length + 1) + (i0 + 1) : Nat) : Int)
      = some ((D s t (i0 + 1) q : Nat) : Int) := by
    rw [readCell_nat]
    exact hknown (i0 + 1) q (by omega) (by omega) (Or.inr (Or.inr (Or.inr ⟨rfl, Nat.le_refl q⟩)))
  have r2 : readCell d (((q * (s.length + 1) + (i0 + 1) : Nat) : Int)
      + ((s.length + 1 : Nat) : Int) - 1) = some ((D s t i0 (q + 1) : Nat) : Int) := by
    rw [readCell_of_eq d _ ((q + 1) * (s.length + 1) + i0) (by rw [Nat.succ_mul]; omega)]
    exact hknown i0 (q + 1) (by omega) (by omega) (Or.inr (Or.inr (Or.inl (by omega))))
  have r3 : readCell d (((q * (s.length + 1) + (i0 + 1) : Nat) : Int) - 1)
      = some ((D s t i0 q : Nat) : Int) := by
    rw [readCell_of_eq d _ (q * (s.length + 1) + i0) (by omega)]
    exact hknown i0 q (by omega) (by omega) (Or.inr (Or.inr (Or.inl (by omega))))
  have hKlt : (q + 1) * (s.length + 1) + (i0 + 1) < L :=
    Nat.lt_of_lt_of_le (flat_lt (by omega) (by omega)) hL
  have hKeq : ((q * (s.length + 1) + (i0 + 1) : Nat) : Int) + ((s.length + 1 : Nat) : Int)
      = (((q + 1) * (s.length + 1) + (i0 + 1) : Nat) : Int) := by
    rw [Nat.succ_mul]; omega
  simp only [innerBody, r1, r2, r3, e1, e2, Option.bind_eq_bind, Option.some_bind,
    Option.pure_def]
  rw [hKeq]
  have hcost : (((if s[i0] = t[q] then 0 else 1 : Nat)) : Int)
      = if s[i0] = t[q] then 0 else 1 := by
    split_ifs <;> rfl
  rw [← hcost, min3_cast, writeCell_of_eq d _ _ _ rfl (by omega)]
  simp only [Option.some_bind]
  have hcost' : (if s[i0] = t[q] then 0 else 1 : Nat) = if s[i0]? = t[q]? then 0 else 1 := by
    simp only [hsi, htq, Option.some.injEq]
  rw [hcost']
  obtain ⟨d2, hd2, hlen2, hother, hcell⟩ := damerauInclusion_spec s t (s.length + 1) i0 q hi hq
    (d.set ((q + 1) * (s.length + 1) + (i0 + 1))
      ((min (min (D s t i0 (q + 1) + 1) (D s t (i0 + 1) q + 1))
        (D s t i0 q + if s[i0]? = t[q]? then 0 else 1) : Nat) : Int))
    ((q + 1) * (s.length + 1) + (i0 + 1)) (by simp; omega)
    (min (min (D s t i0 (q + 1) + 1) (D s t (i0 + 1) q + 1))
        (D s t i0 q + if s[i0]? = t[q]? then 0 else 1))
    (by rw [List.getElem?_set, if_pos rfl, if_pos (by omega)])
    (by
      intro hi0 hq0
      obtain ⟨i1, rfl⟩ : ∃ i1, i0 = i1 + 1 := ⟨i0 - 1, by omega⟩
      obtain ⟨q1, rfl⟩ : ∃ q1, q = q1 + 1 := ⟨q - 1, by omega⟩
      have hidx : (q1 + 1 + 1) * (s.length + 1) + (i1 + 1 + 1) - 2 * (s.length + 1) - 2
          = q1 * (s.length + 1) + i1 := by
        simp only [Nat.add_mul, Nat.one_mul]; omega
      refine ⟨by simp only [Nat.add_mul, Nat.one_mul]; omega, ?_⟩
      rw [hidx, List.getElem?_set, if_neg (by simp only [Nat.add_mul, Nat.one_mul]; omega)]
      exact hknown i1 q1 (by omega) (by omega) (Or.inr (Or.inr (Or.inl (by omega)))))
  rw [hd2]
  refine ⟨_, rfl, ⟨?_, rfl, hg, ?_, ?_⟩, rfl⟩
  · simp only [hlen2, List.length_set, hlen]
  · show (1 : Int) + (q : Int) = ((q + 1 : Nat) : Int)
    omega
  · intro i' j' hi' hj' hP
    show d2[j' * (s.length + 1) + i']? = _
    by_cases hsame : i' = i0 + 1 ∧ j' = q + 1
    · obtain ⟨rfl, rfl⟩ := hsame
      rw [hcell, D_succ]
    · have hne : j' * (s.length + 1) + i' ≠ (q + 1) * (s.length + 1) + (i0 + 1) := by
        intro heq
        exact hsame (flat_inj hi' (by omega) heq)
      rw [hother _ hne, List.getElem?_set, if_neg (Ne.symm hne)]
      apply hknown i' j' hi' hj'
      omega

/-! ## The loops -/

theorem innerLoop_spec {α : Type} [DecidableEq α] (s t : List α) (L i0 c : Nat)
    (hi : i0 < s.length) (hc : c ≤ t.length) (hL : (s.length + 1) * (t.length + 1) ≤ L)
    (v : Vars) (hv : InnerInv s t L (i0 + 1) 0 v) :
    ∃ v', forLoop (innerBody s t ((s.length + 1 : Nat) : Int) ((i0 + 1 : Nat) : Int)) c 1 v
        = some v' ∧ InnerInv s t L (i0 + 1) c v' := by
  have h := forLoop_invariant (innerBody s t ((s.length + 1 : Nat) : Int) ((i0 + 1 : Nat) : Int))
    (fun q v => InnerInv s t L (i0 + 1) q v) 1 c 0 v hv
    (by
      intro r v1 _ hr hv1
      obtain ⟨v2, h2, hinv, _⟩ := innerBody_spec s t L i0 r hi (by omega) hL v1 hv1
      exact ⟨v2, h2, hinv⟩)
  simpa using h

theorem outerBody_spec {α : Type} [DecidableEq α] (s t : List α) (L r : Nat)
    (hr : r < s.length) (hL : (s.length + 1) * (t.length + 1) ≤ L)
    (v : Vars) (hv : OuterInv s t L r v) :
    ∃ v', outerBody s t ((s.length + 1 : Nat) : Int) ((t.length + 1 : Nat) : Int)
        (1 + (r : Int)) v = some v' ∧ OuterInv s t L (r + 1) v' := by
  obtain ⟨hlen, hg, _, hknown⟩ := hv
  have hi : (1 : Int) + (r : Int) = ((r + 1 : Nat) : Int) := by omega
  have hm : (((t.length + 1 : Nat) : Int) - 1).toNat = t.length := by omega
  have hstart : InnerInv s t L (r + 1) 0 { v with k := ((r + 1 : Nat) : Int), f := 0 } := by
    refine ⟨hlen, ?_, ?_, rfl, ?_⟩
    · show ((r + 1 : Nat) : Int) = ((0 * (s.length + 1) + (r + 1) : Nat) : Int)
      rw [Nat.zero_mul, Nat.zero_add]
    · show v.g + 1 = ((r + 1 : Nat) : Int)
      omega
    · intro i' j' hi' hj' hP
      exact hknown i' j' hi' hj' (by omega)
  obtain ⟨v1, h1, hlen1, hk1, _, _, hknown1⟩ :=
    innerLoop_spec s t L r t.length hr (Nat.le_refl _) hL _ hstart
  unfold outerBody
  rw [hi, hm, h1]
  refine ⟨_, rfl, hlen1, rfl, fun _ => hk1, ?_⟩
  intro i' j' hi' hj' hP
  exact hknown1 i' j' hi' hj' (by omega)

theorem init_spec {α : Type} [DecidableEq α] (s t : List α) (d : List Int)
    (hL : (s.length + 1) * (t.length + 1) ≤ d.length) :
    ∃ d1 d2, initRow ((s.length + 1 : Nat) : Int) d = some d1 ∧
      initColumn ((s.length + 1 : Nat) : Int) ((t.length + 1 : Nat) : Int) d1 = some d2 ∧
      OuterInv s t d.length 0
        { d := d2, k := ((t.length + 1 : Nat) : Int), h := 0, f := 0, g := 0 } := by
  have hN : s.length + 1 ≤ d.length := by
    have h : s.length + 1 ≤ (s.length + 1) * (t.length + 1) :=
      Nat.le_mul_of_pos_right (s.length + 1) (Nat.succ_pos t.length)
    omega
  obtain ⟨d1, h1, hlen1, hrow1⟩ := initRow_spec (s.length + 1) d hN
  obtain ⟨d2, h2, hlen2, hrow2, hcol2⟩ :=
    initColumn_spec (s.length + 1) (t.length + 1) (Nat.succ_pos _) d1 (by omega) hrow1
  refine ⟨d1, d2, h1, h2, by show d2.length = d.length; omega, rfl,
    fun h => absurd h (Nat.lt_irrefl 0), ?_⟩
  intro i' j' hi' hj' hP
  show d2[j' * (s.length + 1) + i']? = _
  by_cases h0 : i' = 0
  · subst h0
    rw [D_zero_left, Nat.add_zero]
    exact hcol2 j' hj'
  · have hj0 : j' = 0 := by omega
    subst hj0
    rw [D_zero_right, Nat.zero_mul, Nat.zero_add]
    exact hrow2 i' hi'

theorem outerLoop_spec {α : Type} [DecidableEq α] (s t : List α) (L c : Nat)
    (hc : c ≤ s.length) (hL : (s.length + 1) * (t.length + 1) ≤ L)
    (v : Vars) (hv : OuterInv s t L 0 v) :
    ∃ v', forLoop (outerBody s t ((s.length + 1 : Nat) : Int) ((t.length + 1 : Nat) : Int)) c 1 v
        = some v' ∧ OuterInv s t L c v' := by
  have h := forLoop_invariant
    (outerBody s t ((s.length + 1 : Nat) : Int) ((t.length + 1 : Nat) : Int))
    (fun q v => OuterInv s t L q v) 1 c 0 v hv
    (by
      intro r v1 _ hr hv1
      exact outerBody_spec s t L r (by omega) hL v1 hv1)
  simpa using h

theorem fillMatrix_spec {α : Type} [DecidableEq α] (s t : List α) (d : List Int)
    (hL : (s.length + 1) * (t.length + 1) ≤ d.length) :
    ∃ v, fillMatrix s t ((s.length + 1 : Nat) : Int) ((t.length + 1 : Nat) : Int) d = some v ∧
      OuterInv s t d.length s.length v := by
  obtain ⟨d1, d2, h1, h2, hinv⟩ := init_spec s t d hL
  obtain ⟨v, hv, hinv'⟩ := outerLoop_spec s t d.length s.length (Nat.le_refl _) hL _ hinv
  refine ⟨v, ?_, hinv'⟩
  have hn : (((s.length + 1 : Nat) : Int) - 1).toNat = s.length := by omega
  simp only [fillMatrix, h1, h2, hn, Option.bind_eq_bind, Option.some_bind]
  exact hv

/-- The call on two non-empty strings, with a workspace that is large enough:
the loops end in a state `v` whose `k` is the index of the cell `(n, m)`, and
the call returns the content `D(n, m)` of that cell. -/
theorem dameraulevenshtein_run {α : Type} [DecidableEq α] (s t : List α) (d : List Int)
    (hs : s ≠ []) (ht : t ≠ []) (hL : (s.length + 1) * (t.length + 1) ≤ d.length) :
    ∃ v, fillMatrix s t ((s.length : Int) + 1) ((t.length : Int) + 1) d = some v ∧
      OuterInv s t d.length s.length v ∧
      v.k = ((t.length * (s.length + 1) + s.length : Nat) : Int) ∧
      readCell v.d v.k = some ((D s t s.length t.length : Nat) : Int) ∧
      dameraulevenshtein d (UDF_ARGS.ofStrings s t)
        = some (((D s t s.length t.length : Nat) : Int), v.d) := by
  obtain ⟨v, hv, hinv⟩ := fillMatrix_spec s t d hL
  have hk := hinv.2.2.1
  have hknown := hinv.2.2.2
  have hspos : 0 < s.length := List.length_pos.mpr hs
  have htpos : 0 < t.length := List.length_pos.mpr ht
  have hn : ((s.length : Nat) : Int) ≠ 0 := by omega
  have hm : ((t.length : Nat) : Int) ≠ 0 := by omega
  have hr : readCell v.d v.k = some ((D s t s.length t.length : Nat) : Int) := by
    rw [readCell_of_eq v.d _ _ (hk hspos)]
    exact hknown s.length t.length (by omega) (by omega) (by omega)
  have hv' : fillMatrix s t ((s.length : Int) + 1) ((t.length : Int) + 1) d = some v := by
    rw [← hv]
    push_cast
    rfl
  refine ⟨v, hv', hinv, hk hspos, hr, ?_⟩
  simp only [dameraulevenshtein, UDF_ARGS.ofStrings, ne_eq, hn, hm, not_false_eq_true,
    and_self, if_true]
  simp only [hv', hr, Option.bind_eq_bind, Option.some_bind, Option.pure_def]

/-- The call on two non-empty strings, with a workspace that is large enough:
the returned value is `D(n, m)`, and the workspace left behind holds the whole
table, the cell `(i, j)` at the index `j * (n + 1) + i`. -/
theorem dameraulevenshtein_ofStrings {α : Type} [DecidableEq α] (s t : List α) (d : List Int)
    (hs : s ≠ []) (ht : t ≠ []) (hL : (s.length + 1) * (t.length + 1) ≤ d.length) :
    ∃ d', dameraulevenshtein d (UDF_ARGS.ofStrings s t)
        = some (((D s t s.length t.length : Nat) : Int), d') ∧
      d'.length = d.length ∧
      ∀ i j, i ≤ s.length → j ≤ t.length →
        d'[j * (s.length + 1) + i]? = some ((D s t i j : Nat) : Int) := by
  obtain ⟨v, _, ⟨hlen, _, _, hknown⟩, _, _, hres⟩ := dameraulevenshtein_run s t d hs ht hL
  exact ⟨v.d, hres, hlen, fun i j hi hj => hknown i j (by omega) (by omega) (by omega)⟩

/-- The state in which the body of the loop over `j` is entered for a cell
`(i, j)` with `i, j ≥ 1` exists, and the body leaves the cell filled. -/
theorem cellEntry_spec {α : Type} [DecidableEq α] (s t : List α) (d : List Int) (i0 q : Nat)
    (hi : i0 < s.length) (hq : q < t.length)
    (hL : (s.length + 1) * (t.length + 1) ≤ d.length) :
    ∃ v v', cellEntry s t ((s.length : Int) + 1) ((t.length : Int) + 1) d (i0 + 1) (q + 1)
          = some v ∧
      innerBody s t ((s.length : Int) + 1) ((i0 + 1 : Nat) : Int) ((q + 1 : Nat) : Int) v
          = some v' ∧
      InnerInv s t d.length (i0 + 1) q v ∧ InnerInv s t d.length (i0 + 1) (q + 1) v' ∧
      v'.h = v.k := by
  obtain ⟨d1, d2, h1, h2, hinv⟩ := init_spec s t d hL
  obtain ⟨v0, hv0, hlen, hg, _, hknown⟩ :=
    outerLoop_spec s t d.length i0 (by omega) hL _ hinv
  have hstart : InnerInv s t d.length (i0 + 1) 0 { v0 with k := ((i0 + 1 : Nat) : Int), f := 0 } := by
    refine ⟨hlen, ?_, ?_, rfl, ?_⟩
    · show ((i0 + 1 : Nat) : Int) = ((0 * (s.length + 1) + (i0 + 1) : Nat) : Int)
      rw [Nat.zero_mul, Nat.zero_add]
    · show v0.g + 1 = ((i0 + 1 : Nat) : Int)
      omega
    · intro i' j' hi' hj' hP
      exact hknown i' j' hi' hj' (by omega)
  obtain ⟨v1, hv1, hinv1⟩ := innerLoop_spec s t d.length i0 q hi (by omega) hL _ hstart
  obtain ⟨v2, hv2, hinv2, hh⟩ := innerBody_spec s t d.length i0 q hi hq hL v1 hinv1
  have hN : (s.length : Int) + 1 = ((s.length + 1 : Nat) : Int) := by omega
  have hM : (t.length : Int) + 1 = ((t.length + 1 : Nat) : Int) := by omega
  have hj : ((q + 1 : Nat) : Int) = 1 + (q : Int) := by omega
  refine ⟨v1, v2, ?_, ?_, hinv1, hinv2, hh⟩
  · rw [hN, hM]
    simp only [cellEntry, h1, h2, Nat.add_sub_cancel, hv0, hv1, Option.bind_eq_bind,
      Option.some_bind]
  · rw [hN, hj]
    exact hv2

/-- The value returned by a call on two strings, with a workspace that is
large enough, is `D(n, m)`, also when one of them is empty. -/
theorem distance_eq {α : Type} [DecidableEq α] (s t : List α) (d : List Int)
    (hL : (s.length + 1) * (t.length + 1) ≤ d.length) :
    distance d s t = some ((D s t s.length t.length : Nat) : Int) := by
  by_cases hs : s = []
  · subst hs
    simp [distance, dameraulevenshtein, UDF_ARGS.ofStrings, D_zero_left]
  · by_cases ht : t = []
    · subst ht
      have hn : ((s.length : Nat) : Int) ≠ 0 := by
        have := List.length_pos.mpr hs
        omega
      simp [distance, dameraulevenshtein, UDF_ARGS.ofStrings, D_zero_right, hn]
    · obtain ⟨d', h, _⟩ := dameraulevenshtein_ofStrings s t d hs ht hL
      simp [distance, h]

/-! ## Properties of the table -/

theorem D_congr {α : Type} [DecidableEq α] (s t s' t' : List α) :
    ∀ (B i j : Nat), i + j ≤ B → (∀ x, x < i → s[x]? = s'[x]?) →
      (∀ y, y < j → t[y]? = t'[y]?) → D s t i j = D s' t' i j := by
  intro B
  induction B with
  | zero =>
    intro i j hB _ _
    have hi : i = 0 := by omega
    subst hi
    rw [D_zero_left, D_zero_left]
  | succ B ih =>
    intro i j hB hs ht
    cases i with
    | zero => rw [D_zero_left, D_zero_left]
    | succ i =>
      cases j with
      | zero => rw [D_zero_right, D_zero_right]
      | succ j =>
        rw [D_succ, D_succ, hs i (by omega), hs (i - 1) (by omega), ht j (by omega),
          ht (j - 1) (by omega),
          ih i (j + 1) (by omega) (fun x hx => hs x (by omega)) ht,
          ih (i + 1) j (by omega) hs (fun y hy => ht y (by omega)),
          ih i j (by omega) (fun x hx => hs x (by omega)) (fun y hy => ht y (by omega)),
          ih (i - 1) (j - 1) (by omega) (fun x hx => hs x (by omega))
            (fun y hy => ht y (by omega))]

theorem D_append {α : Type} [DecidableEq α] (s t x y : List α) (i j : Nat)
    (hi : i ≤ s.length) (hj : j ≤ t.length) : D (s ++ x) (t ++ y) i j = D s t i j :=
  D_congr (s ++ x) (t ++ y) s t (i + j) i j (Nat.le_refl _)
    (fun a ha => List.getElem?_append_left (by omega))
    (fun b hb => List.getElem?_append_left (by omega))

theorem D_symm {α : Type} [DecidableEq α] (s t : List α) :
    ∀ (B i j : Nat), i + j ≤ B → D s t i j = D t s j i := by
  intro B
  induction B with
  | zero =>
    intro i j hB
    have hi : i = 0 := by omega
    have hj : j = 0 := by omega
    subst hi hj
    rw [D_zero_left, D_zero_left]
  | succ B ih =>
    intro i j hB
    cases i with
    | zero => rw [D_zero_left, D_zero_right]
    | succ i =>
      cases j with
      | zero => rw [D_zero_right, D_zero_left]
      | succ j =>
        have hcost : (if s[i]? = t[j]? then 0 else 1 : Nat) = if t[j]? = s[i]? then 0 else 1 := by
          by_cases h : s[i]? = t[j]?
          · rw [if_pos h, if_pos h.symm]
          · rw [if_neg h, if_neg (fun h' => h h'.symm)]
        rw [D_succ, D_succ, hcost, ih i (j + 1) (by omega), ih (i + 1) j (by omega),
          ih i j (by omega), ih (i - 1) (j - 1) (by omega),
          min_comm (D t s (j + 1) i + 1) (D t s j (i + 1) + 1)]
        by_cases hc : 0 < i ∧ 0 < j ∧ s[i]? = t[j - 1]? ∧ s[i - 1]? = t[j]?
        · have hc' : 0 < j ∧ 0 < i ∧ t[j]? = s[i - 1]? ∧ t[j - 1]? = s[i]? :=
            ⟨hc.2.1, hc.1, hc.2.2.2.symm, hc.2.2.1.symm⟩
          rw [if_pos hc, if_pos hc']
        · have hc' : ¬ (0 < j ∧ 0 < i ∧ t[j]? = s[i - 1]? ∧ t[j - 1]? = s[i]?) :=
            fun h => hc ⟨h.2.1, h.1, h.2.2.2.symm, h.2.2.1.symm⟩
          rw [if_neg hc, if_neg hc']

theorem D_succ_le {α : Type} [DecidableEq α] (s t : List α) (i j : Nat) :
    D s t (i + 1) (j + 1) ≤ D s t i j + 1 := by
  rw [D_succ]
  have hc : (if s[i]? = t[j]? then 0 else 1 : Nat) ≤ 1 := by split_ifs <;> omega
  split_ifs <;> omega

theorem D_le_max {α : Type} [DecidableEq α] (s t : List α) :
    ∀ (i j : Nat), D s t i j ≤ max i j := by
  intro i
  induction i with
  | zero => intro j; rw [D_zero_left]; omega
  | succ i ih =>
    intro j
    cases j with
    | zero => rw [D_zero_right]; omega
    | succ j =>
      have h1 := D_succ_le s t i j
      have h2 := ih j
      omega

theorem D_le_delete {α : Type} [DecidableEq α] (s t : List α) (i j : Nat) :
    D s t (i + 1) j ≤ D s t i j + 1 := by
  cases j with
  | zero => rw [D_zero_right, D_zero_right]
  | succ j =>
    rw [D_succ]
    split_ifs <;> omega

theorem D_le_insert {α : Type} [DecidableEq α] (s t : List α) (i j : Nat) :
    D s t i (j + 1) ≤ D s t i j + 1 := by
  cases i with
  | zero => rw [D_zero_left, D_zero_left]
  | succ i =>
    rw [D_succ]
    split_ifs <;> omega

theorem D_le_diag {α : Type} [DecidableEq α] (s t : List α) (i j : Nat) :
    D s t (i + 1) (j + 1) ≤ D s t i j + if s[i]? = t[j]? then 0 else 1 := by
  rw [D_succ]
  split_ifs <;> omega

theorem D_le_swap {α : Type} [DecidableEq α] (s t : List α) (i j : Nat)
    (h1 : s[i + 1]? = t[j]?) (h2 : s[i]? = t[j + 1]?) :
    D s t (i + 2) (j + 2) ≤ D s t i j + 1 := by
  show D s t (i + 1 + 1) (j + 1 + 1) ≤ D s t i j + 1
  rw [D_succ, if_pos ⟨Nat.succ_pos i, Nat.succ_pos j, h1, h2⟩]
  simp only [Nat.add_sub_cancel]
  have hc : (if s[i + 1]? = t[j + 1]? then 0 else 1 : Nat) ≤ 1 := by split_ifs <;> omega
  omega

/-! ## Restricted edit scripts -/

theorem getElem?_snoc {α : Type} (s : List α) (a : α) : (s ++ [a])[s.length]? = some a := by
  rw [List.getElem?_append_right (Nat.le_refl _)]
  simp

theorem Script.lower {α : Type} [DecidableEq α] {k : Nat} {s t : List α} (h : Script k s t) :
    D s t s.length t.length ≤ k := by
  induction h with
  | nil => show D [] [] 0 0 ≤ 0; rw [D_zero_left]
  | @keep k s t a _ ih =>
    have h1 := D_le_diag (s ++ [a]) (t ++ [a]) s.length t.length
    rw [getElem?_snoc, getElem?_snoc, if_pos rfl, D_append s t _ _ _ _ (Nat.le_refl _)
      (Nat.le_refl _)] at h1
    simp only [List.length_append, List.length_singleton]
    omega
  | @delete k s t a _ ih =>
    have h1 := D_le_delete (s ++ [a]) t s.length t.length
    have h2 := D_append s t [a] [] s.length t.length (Nat.le_refl _) (Nat.le_refl _)
    rw [List.append_nil] at h2
    simp only [List.length_append, List.length_singleton]
    omega
  | @insert k s t b _ ih =>
    have h1 := D_le_insert s (t ++ [b]) s.length t.length
    have h2 := D_append s t [] [b] s.length t.length (Nat.le_refl _) (Nat.le_refl _)
    rw [List.append_nil] at h2
    simp only [List.length_append, List.length_singleton]
    omega
  | @substitute k s t a b _ _ ih =>
    have h1 := D_le_diag (s ++ [a]) (t ++ [b]) s.length t.length
    have h2 := D_append s t [a] [b] s.length t.length (Nat.le_refl _) (Nat.le_refl _)
    have hc : (if (s ++ [a])[s.length]? = (t ++ [b])[t.length]? then 0 else 1 : Nat) ≤ 1 := by
      split_ifs <;> omega
    simp only [List.length_append, List.length_singleton]
    omega
  | @swap k s t a b _ ih =>
    have e1 : (s ++ [a, b])[s.length + 1]? = some b := by
      rw [List.getElem?_append_right (by omega)]
      simp
    have e2 : (t ++ [b, a])[t.length]? = some b := by
      rw [List.getElem?_append_right (Nat.le_refl _)]
      simp
    have e3 : (s ++ [a, b])[s.length]? = some a := by
      rw [List.getElem?_append_right (Nat.le_refl _)]
      simp
    have e4 : (t ++ [b, a])[t.length + 1]? = some a := by
      rw [List.getElem?_append_right (by omega)]
      simp
    have h1 := D_le_swap (s ++ [a, b]) (t ++ [b, a]) s.length t.length (by rw [e1, e2])
      (by rw [e3, e4])
    have h2 := D_append s t [a, b] [b, a] s.length t.length (Nat.le_refl _) (Nat.le_refl _)
    have l1 : (s ++ [a, b]).length = s.length + 2 := by simp
    have l2 : (t ++ [b, a]).length = t.length + 2 := by simp
    rw [l1, l2]
    omega

theorem take_succ_snoc {α : Type} (l : List α) (n : Nat) (h : n < l.length) :
    l.take (n + 1) = l.take n ++ [l[n]] := by
  rw [List.take_succ, List.getElem?_eq_getElem h]
  rfl

theorem Script.min {α : Type} {a b : Nat} {s t : List α} (ha : Script a s t)
    (hb : Script b s t) : Script (min a b) s t := by
  rcases min_choice a b with h | h <;> rw [h] <;> assumption

theorem Script.table {α : Type} [DecidableEq α] (s t : List α) :
    ∀ (B i j : Nat), i + j ≤ B → i ≤ s.length → j ≤ t.length →
      Script (D s t i j) (s.take i) (t.take j) := by
  intro B
  induction B with
  | zero =>
    intro i j hB _ _
    have hi : i = 0 := by omega
    have hj : j = 0 := by omega
    subst hi hj
    rw [D_zero_left]
    exact Script.nil
  | succ B ih =>
    intro i j hB hi hj
    cases i with
    | zero =>
      cases j with
      | zero => rw [D_zero_left]; exact Script.nil
      | succ j =>
        have h := ih 0 j (by omega) hi (by omega)
        rw [D_zero_left] at h
        rw [D_zero_left, take_succ_snoc t j (by omega)]
        exact Script.insert _ h
    | succ i =>
      cases j with
      | zero =>
        have h := ih i 0 (by omega) (by omega) hj
        rw [D_zero_right] at h
        rw [D_zero_right, take_succ_snoc s i (by omega)]
        exact Script.delete _ h
      | succ j =>
        have hsi : s[i]? = some (s[i]) := List.getElem?_eq_getElem (by omega)
        have htj : t[j]? = some (t[j]) := List.getElem?_eq_getElem (by omega)
        have hA : Script (D s t i (j + 1) + 1) (s.take (i + 1)) (t.take (j + 1)) := by
          rw [take_succ_snoc s i (by omega)]
          exact Script.delete _ (ih i (j + 1) (by omega) (by omega) hj)
        have hB' : Script (D s t (i + 1) j + 1) (s.take (i + 1)) (t.take (j + 1)) := by
          rw [take_succ_snoc t j (by omega)]
          exact Script.insert _ (ih (i + 1) j (by omega) hi (by omega))
        have hC : Script (D s t i j + if s[i]? = t[j]? then 0 else 1) (s.take (i + 1))
            (t.take (j + 1)) := by
          have h0 := ih i j (by omega) (by omega) (by omega)
          rw [take_succ_snoc s i (by omega), take_succ_snoc t j (by omega)]
          by_cases he : s[i]? = t[j]?
          · rw [if_pos he, Nat.add_zero]
            have he' : s[i] = t[j] := by
              rw [hsi, htj] at he
              exact Option.some.inj he
            rw [← he']
            exact Script.keep _ h0
          · rw [if_neg he]
            have he' : s[i] ≠ t[j] := by
              intro h
              apply he
              rw [hsi, htj, h]
            exact Script.substitute _ _ he' h0
        rw [D_succ]
        by_cases hc : 0 < i ∧ 0 < j ∧ s[i]? = t[j - 1]? ∧ s[i - 1]? = t[j]?
        · rw [if_pos hc]
          refine Script.min (Script.min (Script.min hA hB') hC) ?_
          obtain ⟨hi0, hj0, h1, h2⟩ := hc
          obtain ⟨i1, rfl⟩ : ∃ i1, i = i1 + 1 := ⟨i - 1, by omega⟩
          obtain ⟨j1, rfl⟩ : ∃ j1, j = j1 + 1 := ⟨j - 1, by omega⟩
          simp only [Nat.add_sub_cancel] at h1 h2 ⊢
          have hsi1 : s[i1]? = some (s[i1]) := List.getElem?_eq_getElem (by omega)
          have htj1 : t[j1]? = some (t[j1]) := List.getElem?_eq_getElem (by omega)
          have h1' : s[i1 + 1] = t[j1] := by
            rw [hsi, htj1] at h1
            exact Option.some.inj h1
          have h2' : s[i1] = t[j1 + 1] := by
            rw [hsi1, htj] at h2
            exact Option.some.inj h2
          have h0 := ih i1 j1 (by omega) (by omega) (by omega)
          rw [take_succ_snoc s (i1 + 1) (by omega), take_succ_snoc t (j1 + 1) (by omega),
            take_succ_snoc s i1 (by omega), take_succ_snoc t j1 (by omega),
            List.append_assoc, List.append_assoc, ← h1', ← h2']
          by_cases he : s[i1 + 1]? = t[j1 + 1]?
          · rw [if_pos he, Nat.add_zero]
            have he' : s[i1 + 1] = s[i1] := by
              rw [hsi, htj] at he
              rw [h2']
              exact Option.some.inj he
            rw [he']
            have h3 := Script.keep (s[i1]) (Script.keep (s[i1]) h0)
            rw [List.append_assoc, List.append_assoc] at h3
            exact h3
          · rw [if_neg he]
            exact Script.swap _ _ h0
        · rw [if_neg hc]
          exact Script.min (Script.min hA hB') hC

theorem Script.refl {α : Type} (u : List α) : Script 0 u u := by
  induction u using List.reverseRecOn with
  | nil => exact Script.nil
  | append_singleton u a ih => exact Script.keep a ih

theorem Script.append {α : Type} {k : Nat} {x y : List α} (h : Script k x y) (v : List α) :
    Script k (x ++ v) (y ++ v) := by
  induction v using List.reverseRecOn with
  | nil => rw [List.append_nil, List.append_nil]; exact h
  | append_singleton v a ih =>
    rw [← List.append_assoc, ← List.append_assoc]
    exact Script.keep a ih

theorem Script.eq_of_zero {α : Type} {k : Nat} {s t : List α} (h : Script k s t) (hk : k = 0) :
    s = t := by
  induction h with
  | nil => rfl
  | keep a _ ih => rw [ih hk]
  | delete a _ _ => omega
  | insert b _ _ => omega
  | substitute a b _ _ _ => omega
  | swap a b _ _ => omega

/-- The value of the table at `(n, m)` is the length of a shortest restricted
edit script from `s` to `t`. -/
theorem D_isLeast {α : Type} [DecidableEq α] (s t : List α) :
    Script (D s t s.length t.length) s t ∧
      ∀ k, Script k s t → D s t s.length t.length ≤ k := by
  refine ⟨?_, fun k h => h.lower⟩
  have h := Script.table s t (s.length + t.length) s.length t.length (Nat.le_refl _)
    (Nat.le_refl _) (Nat.le_refl _)
  rw [List.take_length, List.take_length] at h
  exact h

theorem D_eq_zero_iff {α : Type} [DecidableEq α] (s t : List α) :
    D s t s.length t.length = 0 ↔ s = t := by
  constructor
  · intro h
    have h1 := (D_isLeast s t).1
    exact h1.eq_of_zero h
  · intro h
    subst h
    have h1 := (Script.refl s).lower
    omega

theorem D_eq_one {α : Type} [DecidableEq α] (s t : List α) (h : Script 1 s t) (hne : s ≠ t) :
    D s t s.length t.length = 1 := by
  have h1 := h.lower
  have h2 : D s t s.length t.length ≠ 0 := fun h0 => hne ((D_eq_zero_iff s t).mp h0)
  omega

/-! ## Sequences that agree except at a few positions -/

theorem split_at {α : Type} (l : List α) (p : Nat) (h : p < l.length) :
    l = l.take p ++ l[p] :: l.drop (p + 1) := by
  rw [← List.drop_eq_getElem_cons h, List.take_append_drop]

theorem take_eq_of_agree {α : Type} (s t : List α) (p : Nat)
    (h : ∀ q, q < p → s[q]? = t[q]?) : s.take p = t.take p := by
  apply List.ext_getElem?
  intro q
  rw [List.getElem?_take, List.getElem?_take]
  by_cases hq : q < p
  · rw [if_pos hq, if_pos hq, h q hq]
  · rw [if_neg hq, if_neg hq]

theorem drop_eq_of_agree {α : Type} (s t : List α) (p : Nat)
    (h : ∀ q, p ≤ q → s[q]? = t[q]?) : s.drop p = t.drop p := by
  apply List.ext_getElem?
  intro q
  rw [List.getElem?_drop, List.getElem?_drop]
  exact h (p + q) (by omega)

theorem Script.one_substitute {α : Type} (u v : List α) (a b : α) (hab : a ≠ b) :
    Script 1 (u ++ a :: v) (u ++ b :: v) := by
  have h := (Script.substitute a b hab (Script.refl u)).append v
  simpa using h

theorem Script.one_swap {α : Type} (u v : List α) (a b : α) :
    Script 1 (u ++ a :: b :: v) (u ++ b :: a :: v) := by
  have h := (Script.swap a b (Script.refl u)).append v
  simpa using h

theorem Script.one_insert {α : Type} (u v : List α) (a : α) :
    Script 1 (u ++ v) (u ++ a :: v) := by
  have h := (Script.insert a (Script.refl u)).append v
  simpa using h

theorem Script.one_delete {α : Type} (u v : List α) (a : α) :
    Script 1 (u ++ a :: v) (u ++ v) := by
  have h := (Script.delete a (Script.refl u)).append v
  simpa using h

theorem distance_eq_one {α : Type} [DecidableEq α] (s t : List α) (d : List Int)
    (hL : (s.length + 1) * (t.length + 1) ≤ d.length) (h : Script 1 s t) (hne : s ≠ t) :
    distance d s t = some 1 := by
  rw [distance_eq s t d hL, D_eq_one s t h hne]
  rfl

/-! ## The claims -/

/-- C2, as stated, fails: a chain of two elementary edits (swap `c` and `a`,
then insert `b`) leads from "ca" to "abc", and the call returns 3, with exact
integers and with `int` variables of 32 bits. -/
theorem shortest_chain_counterexample :
    Chain 2 ['c', 'a'] ['a', 'b', 'c'] ∧
      distance (List.replicate 12 0) ['c', 'a'] ['a', 'b', 'c'] = some 3 ∧
      distance32 (List.replicate 12 0) ['c', 'a'] ['a', 'b', 'c'] = some 3 := by
  refine ⟨?_, by decide, by decide⟩
  exact Chain.step (Edit.swap [] [] 'c' 'a')
    (Chain.step (Edit.insert ['a'] ['c'] 'b') (Chain.refl _))

/-- C3: with a workspace that is large enough, the call on `s` and `t` and the
call on `t` and `s` return the same value, for all sequences, empty or not. -/
theorem dameraulevenshtein_symmetric {α : Type} [DecidableEq α] (s t : List α)
    (d : List Int) (hL : (s.length + 1) * (t.length + 1) ≤ d.length) :
    distance d s t = distance d t s := by
  rw [distance_eq s t d hL, distance_eq t s d (by rw [Nat.mul_comm]; exact hL),
    D_symm s t (s.length + t.length) s.length t.length (Nat.le_refl _)]

theorem dameraulevenshtein_symmetric_witness :
    distance (List.replicate 12 0) ['c', 'a'] ['a', 'b', 'c']
      = distance (List.replicate 12 0) ['a', 'b', 'c'] ['c', 'a'] :=
  dameraulevenshtein_symmetric ['c', 'a'] ['a', 'b', 'c'] (List.replicate 12 0) (by decide)

/-- C6: whatever the workspace, when the first argument is empty (NULL, or of
length 0) and the second is a string, the call returns the length of the
second; when the second is empty and the first is a string, it returns the
length of the first; when both are empty it returns 0. -/
theorem dameraulevenshtein_empty_input {α : Type} [DecidableEq α] (d : List Int)
    (args : UDF_ARGS α) :
    ((args.args0 = none ∨ args.lengths0 = 0) → args.args1 ≠ none →
      (dameraulevenshtein d args).map Prod.fst = some (args.lengths1 : Int)) ∧
    ((args.args1 = none ∨ args.lengths1 = 0) → args.args0 ≠ none →
      (dameraulevenshtein d args).map Prod.fst = some (args.lengths0 : Int)) ∧
    ((args.args0 = none ∨ args.lengths0 = 0) → (args.args1 = none ∨ args.lengths1 = 0) →
      (dameraulevenshtein d args).map Prod.fst = some 0) := by
  obtain ⟨a0, a1, l0, l1⟩ := args
  refine ⟨?_, ?_, ?_⟩
  · intro h0 h1
    cases a1 with
    | none => exact absurd rfl h1
    | some t =>
      rcases h0 with h0 | h0
      · simp only at h0
        subst h0
        simp [dameraulevenshtein]
      · simp only at h0
        subst h0
        cases a0 <;> simp [dameraulevenshtein]
  · intro h1 h0
    cases a0 with
    | none => exact absurd rfl h0
    | some s =>
      rcases h1 with h1 | h1
      · simp only at h1
        subst h1
        by_cases hl : (l0 : Int) = 0
        · simp [dameraulevenshtein, hl]
        · simp [dameraulevenshtein, hl]
      · simp only at h1
        subst h1
        cases a1 <;> by_cases hl : (l0 : Int) = 0 <;> simp [dameraulevenshtein, hl]
  · intro h0 h1
    rcases h0 with h0 | h0 <;> rcases h1 with h1 | h1 <;> simp only at h0 h1 <;>
      subst h0 <;> subst h1
    · simp [dameraulevenshtein]
    · cases a1 <;> simp [dameraulevenshtein]
    · cases a0 <;> simp [dameraulevenshtein]
    · cases a0 <;> cases a1 <;> simp [dameraulevenshtein]

theorem dameraulevenshtein_empty_input_witness :
    (dameraulevenshtein [] (UDF_ARGS.mk none (some ['a', 'b']) 5 2)).map Prod.fst = some 2 :=
  (dameraulevenshtein_empty_input [] (UDF_ARGS.mk none (some ['a', 'b']) 5 2)).1
    (Or.inl rfl) (by decide)

/-- C10: the call on "kitten" and "sitting" returns 3, with a workspace of at
least 56 cells. -/
theorem dameraulevenshtein_kitten_sitting (d : List Int) (hL : 56 ≤ d.length) :
    distance d ['k', 'i', 't', 't', 'e', 'n'] ['s', 'i', 't', 't', 'i', 'n', 'g'] = some 3 := by
  have h0 : distance (List.replicate 56 0) ['k', 'i', 't', 't', 'e', 'n']
      ['s', 'i', 't', 't', 'i', 'n', 'g'] = some 3 := by
    set_option maxRecDepth 100000 in decide
  rw [distance_eq ['k', 'i', 't', 't', 'e', 'n'] ['s', 'i', 't', 't', 'i', 'n', 'g']
    (List.replicate 56 0) (by decide)] at h0
  rw [distance_eq ['k', 'i', 't', 't', 'e', 'n'] ['s', 'i', 't', 't', 'i', 'n', 'g'] d hL]
  exact h0

theorem dameraulevenshtein_kitten_sitting_witness :
    distance (List.replicate 60 7) ['k', 'i', 't', 't', 'e', 'n']
      ['s', 'i', 't', 't', 'i', 'n', 'g'] = some 3 :=
  dameraulevenshtein_kitten_sitting (List.replicate 60 7) (by decide)

/-! ## Workspaces, prefixes and chains -/

/-- The returned value is the same on every workspace that is large enough. -/
theorem distance_workspace {α : Type} [DecidableEq α] (s t : List α) (d1 d2 : List Int)
    (h1 : (s.length + 1) * (t.length + 1) ≤ d1.length)
    (h2 : (s.length + 1) * (t.length + 1) ≤ d2.length) :
    distance d1 s t = distance d2 s t := by
  rw [distance_eq s t d1 h1, distance_eq s t d2 h2]

/-- A call on two strings leaves a workspace of the same length. -/
theorem dameraulevenshtein_length {α : Type} [DecidableEq α] (s t : List α) (d d' : List Int)
    (r : Int) (hL : (s.length + 1) * (t.length + 1) ≤ d.length)
    (h : dameraulevenshtein d (UDF_ARGS.ofStrings s t) = some (r, d')) :
    d'.length = d.length := by
  by_cases hs : s = []
  · subst hs
    simp [dameraulevenshtein, UDF_ARGS.ofStrings] at h
    rw [← h.2]
  · by_cases ht : t = []
    · subst ht
      have hn : ((s.length : Nat) : Int) ≠ 0 := by
        have := List.length_pos.mpr hs
        omega
      simp [dameraulevenshtein, UDF_ARGS.ofStrings, hn] at h
      rw [← h.2]
    · obtain ⟨d2, h2, hlen, _⟩ := dameraulevenshtein_ofStrings s t d hs ht hL
      rw [h2] at h
      have h3 := (Prod.mk.inj (Option.some.inj h)).2
      rw [← h3]
      exact hlen

theorem D_take {α : Type} [DecidableEq α] (s t : List α) (i j : Nat) :
    D (s.take i) (t.take j) i j = D s t i j :=
  D_congr (s.take i) (t.take j) s t (i + j) i j (Nat.le_refl _)
    (fun x hx => by rw [List.getElem?_take, if_pos hx])
    (fun y hy => by rw [List.getElem?_take, if_pos hy])

theorem Edit.edit_suffix {α : Type} {x y : List α} (h : Edit x y) (w : List α) :
    Edit (x ++ w) (y ++ w) := by
  cases h with
  | insert u v a => simpa using Edit.insert u (v ++ w) a
  | delete u v a => simpa using Edit.delete u (v ++ w) a
  | substitute u v a b hab => simpa using Edit.substitute u (v ++ w) a b hab
  | swap u v a b => simpa using Edit.swap u (v ++ w) a b

theorem Chain.chain_suffix {α : Type} {k : Nat} {x y : List α} (h : Chain k x y)
    (w : List α) : Chain k (x ++ w) (y ++ w) := by
  induction h with
  | refl s => exact Chain.refl _
  | step he _ ih => exact Chain.step (he.edit_suffix w) ih

theorem Chain.snoc {α : Type} {k : Nat} {x y z : List α} (h : Chain k x y) (he : Edit y z) :
    Chain (k + 1) x z := by
  induction h with
  | refl s => exact Chain.step he (Chain.refl _)
  | step he' _ ih => exact Chain.step he' (ih he)

/-- A restricted edit script of `k` edits is a chain of `k` elementary edits. -/
theorem Script.toChain {α : Type} {k : Nat} {s t : List α} (h : Script k s t) :
    Chain k s t := by
  induction h with
  | nil => exact Chain.refl _
  | keep a _ ih => exact ih.chain_suffix [a]
  | @delete k s t a _ ih =>
    have he : Edit (s ++ [a]) s := by simpa using Edit.delete s [] a
    exact Chain.step he ih
  | @insert k s t b _ ih =>
    have he : Edit t (t ++ [b]) := by simpa using Edit.insert t [] b
    exact ih.snoc he
  | @substitute k s t a b hab _ ih =>
    exact (ih.chain_suffix [a]).snoc (Edit.substitute t [] a b hab)
  | @swap k s t a b _ ih =>
    exact (ih.chain_suffix [a, b]).snoc (Edit.swap t [] a b)

/-! ## Variants of the loop body -/

theorem forLoop_congr_invariant {σ : Type} (body body' : Int → σ → Option σ)
    (P : Nat → σ → Prop) (lo : Int) (c : Nat) :
    ∀ (q : Nat) (st : σ), P q st →
      (∀ r st, q ≤ r → r < q + c → P r st →
        ∃ st', body (lo + r) st = some st' ∧ P (r + 1) st' ∧ body' (lo + r) st = some st') →
      forLoop body' c (lo + q) st = forLoop body c (lo + q) st := by
  induction c with
  | zero => intro q st _ _; rfl
  | succ c ih =>
    intro q st h0 hstep
    obtain ⟨st1, hb, h1, hb'⟩ := hstep q st (Nat.le_refl q) (by omega) h0
    have hrest := ih (q + 1) st1 h1 (fun r st hr hr' hP => hstep r st (by omega) (by omega) hP)
    have he : lo + ((q + 1 : Nat) : Int) = lo + (q : Int) + 1 := by omega
    rw [he] at hrest
    simp only [forLoop, hb, hb', Option.some_bind, Option.bind_eq_bind]
    exact hrest

theorem forLoop_some_invariant {σ : Type} (body : Int → σ → Option σ) (P : Nat → σ → Prop)
    (lo : Int) (c : Nat) :
    ∀ (q : Nat) (st st' : σ), P q st →
      (∀ r st st', q ≤ r → r < q + c → P r st → body (lo + r) st = some st' → P (r + 1) st') →
      forLoop body c (lo + q) st = some st' → P (q + c) st' := by
  induction c with
  | zero =>
    intro q st st' h0 _ h
    simp only [forLoop, Option.some.injEq] at h
    rw [← h]
    exact h0
  | succ c ih =>
    intro q st st' h0 hstep h
    simp only [forLoop, Option.bind_eq_bind] at h
    cases hb : body (lo + q) st with
    | none => rw [hb] at h; simp at h
    | some st1 =>
      rw [hb, Option.some_bind] at h
      have h1 := hstep q st st1 (Nat.le_refl q) (by omega) h0 hb
      have he : lo + (q : Int) + 1 = lo + ((q + 1 : Nat) : Int) := by omega
      rw [he] at h
      have h2 := ih (q + 1) st1 st' h1
        (fun r st st' hr hr' hP => hstep r st st' (by omega) (by omega) hP) h
      have he' : q + 1 + c = q + (c + 1) := by omega
      rw [he'] at h2
      exact h2

theorem innerInv_start {α : Type} [DecidableEq α] (s t : List α) (L r : Nat) (v : Vars)
    (hv : OuterInv s t L r v) :
    InnerInv s t L (r + 1) 0 { v with k := ((r + 1 : Nat) : Int), f := 0 } := by
  obtain ⟨hlen, hg, _, hknown⟩ := hv
  refine ⟨hlen, ?_, ?_, rfl, ?_⟩
  · show ((r + 1 : Nat) : Int) = ((0 * (s.length + 1) + (r + 1) : Nat) : Int)
    rw [Nat.zero_mul, Nat.zero_add]
  · show v.g + 1 = ((r + 1 : Nat) : Int)
    omega
  · intro i' j' hi' hj' hP
    exact hknown i' j' hi' hj' (by omega)

/-- A variant `inner` of the body of the loop over `j` that agrees with
`innerBody` on every state that satisfies the invariant fills the same matrix
as `fillMatrix`. -/
theorem fillMatrix_congr {α : Type} [DecidableEq α] (s t : List α) (d : List Int)
    (inner : Int → Int → Vars → Option Vars)
    (hL : (s.length + 1) * (t.length + 1) ≤ d.length)
    (hstep : ∀ i0 q v, i0 < s.length → q < t.length → InnerInv s t d.length (i0 + 1) q v →
      inner ((i0 + 1 : Nat) : Int) (1 + (q : Int)) v
        = innerBody s t ((s.length + 1 : Nat) : Int) ((i0 + 1 : Nat) : Int) (1 + (q : Int)) v) :
    (initRow ((s.length + 1 : Nat) : Int) d).bind (fun d1 =>
      (initColumn ((s.length + 1 : Nat) : Int) ((t.length + 1 : Nat) : Int) d1).bind (fun d2 =>
        forLoop (fun i v =>
            (forLoop (inner i) (((t.length + 1 : Nat) : Int) - 1).toNat 1
              { v with k := i, f := 0 }).bind (fun v => some { v with g := i }))
          (((s.length + 1 : Nat) : Int) - 1).toNat 1
          { d := d2, k := ((t.length + 1 : Nat) : Int), h := 0, f := 0, g := 0 }))
      = fillMatrix s t ((s.length + 1 : Nat) : Int) ((t.length + 1 : Nat) : Int) d := by
  obtain ⟨d1, d2, h1, h2, hinv⟩ := init_spec s t d hL
  have hn : (((s.length + 1 : Nat) : Int) - 1).toNat = s.length := by omega
  have hm : (((t.length + 1 : Nat) : Int) - 1).toNat = t.length := by omega
  simp only [fillMatrix, h1, h2, hn, hm, Option.bind_eq_bind, Option.some_bind]
  have h := forLoop_congr_invariant
    (outerBody s t ((s.length + 1 : Nat) : Int) ((t.length + 1 : Nat) : Int))
    (fun i v =>
      (forLoop (inner i) t.length 1 { v with k := i, f := 0 }).bind
        (fun v => some { v with g := i }))
    (fun q v => OuterInv s t d.length q v) 1 s.length 0 _ hinv
    (by
      intro r v _ hr hv
      obtain ⟨v', hv', hinv'⟩ := outerBody_spec s t d.length r (by omega) hL v hv
      refine ⟨v', hv', hinv', ?_⟩
      rw [← hv']
      have hi : (1 : Int) + (r : Int) = ((r + 1 : Nat) : Int) := by omega
      simp only [outerBody, hm, hi, Option.bind_eq_bind, Option.pure_def]
      congr 1
      have hc := forLoop_congr_invariant
        (innerBody s t ((s.length + 1 : Nat) : Int) ((r + 1 : Nat) : Int))
        (inner ((r + 1 : Nat) : Int))
        (fun q v => InnerInv s t d.length (r + 1) q v) 1 t.length 0 _
        (innerInv_start s t d.length r v hv)
        (by
          intro q v1 _ hq hv1
          obtain ⟨v2, h2, hinv2, _⟩ := innerBody_spec s t d.length r q (by omega) (by omega)
            hL v1 hv1
          refine ⟨v2, h2, hinv2, ?_⟩
          rw [hstep r q v1 (by omega) (by omega) hv1]
          exact h2)
      simpa using hc)
  simpa using h

/-- The reads of the body of the loop over `j` on a state that satisfies the
invariant, and the index of the cell it writes. -/
theorem innerBody_reads {α : Type} [DecidableEq α] (s t : List α) (i0 q : Nat)
    (hi : i0 < s.length) (hq : q < t.length) (d : List Int)
    (hknown : ∀ i' j', i' < s.length + 1 → j' < t.length + 1 →
      (i' = 0 ∨ j' = 0 ∨ i' < i0 + 1 ∨ (i' = i0 + 1 ∧ j' ≤ q)) →
      d[j' * (s.length + 1) + i']? = some ((D s t i' j' : Nat) : Int)) :
    readCell d ((q * (s.length + 1) + (i0 + 1) : Nat) : Int)
        = some ((D s t (i0 + 1) q : Nat) : Int) ∧
    readCell d ((((q + 1) * (s.length + 1) + (i0 + 1) : Nat) : Int) - 1)
        = some ((D s t i0 (q + 1) : Nat) : Int) ∧
    readCell d (((q * (s.length + 1) + (i0 + 1) : Nat) : Int) - 1)
        = some ((D s t i0 q : Nat) : Int) ∧
    readElem s (i0 : Int) = some (s[i0]) ∧ readElem t (q : Int) = some (t[q]) ∧
    (q + 1) * (s.length + 1) + (i0 + 1) < (s.length + 1) * (t.length + 1) ∧
    ((q * (s.length + 1) + (i0 + 1) : Nat) : Int) + ((s.length + 1 : Nat) : Int)
      = (((q + 1) * (s.length + 1) + (i0 + 1) : Nat) : Int) := by
  refine ⟨?_, ?_, ?_, ?_, ?_, flat_lt (by omega) (by omega), ?_⟩
  · rw [readCell_nat]
    exact hknown (i0 + 1) q (by omega) (by omega) (Or.inr (Or.inr (Or.inr ⟨rfl, Nat.le_refl q⟩)))
  · rw [readCell_of_eq d _ ((q + 1) * (s.length + 1) + i0) (by omega)]
    exact hknown i0 (q + 1) (by omega) (by omega) (Or.inr (Or.inr (Or.inl (by omega))))
  · rw [readCell_of_eq d _ (q * (s.length + 1) + i0) (by omega)]
    exact hknown i0 q (by omega) (by omega) (Or.inr (Or.inr (Or.inl (by omega))))
  · rw [readElem_of_eq s _ i0 rfl, List.getElem?_eq_getElem hi]
  · rw [readElem_of_eq t _ q rfl, List.getElem?_eq_getElem hq]
  · rw [Nat.succ_mul]; omega

/-- The workspace right after the write `d[k] = min` of the body of the loop
over `j`: the cell `(i, j)` holds `base` and the cell `(i - 2, j - 2)` its
value of the table. -/
theorem innerBody_written {α : Type} [DecidableEq α] (s t : List α) (L i0 q : Nat)
    (hi : i0 < s.length) (hq : q < t.length) (hL : (s.length + 1) * (t.length + 1) ≤ L)
    (d : List Int) (hlen : d.length = L) (base : Int)
    (hknown : ∀ i' j', i' < s.length + 1 → j' < t.length + 1 →
      (i' = 0 ∨ j' = 0 ∨ i' < i0 + 1 ∨ (i' = i0 + 1 ∧ j' ≤ q)) →
      d[j' * (s.length + 1) + i']? = some ((D s t i' j' : Nat) : Int)) :
    (d.set ((q + 1) * (s.length + 1) + (i0 + 1)) base)[(q + 1) * (s.length + 1) + (i0 + 1)]?
        = some base ∧
    (0 < i0 → 0 < q → 2 * (s.length + 1) + 2 ≤ (q + 1) * (s.length + 1) + (i0 + 1) ∧
      (d.set ((q + 1) * (s.length + 1) + (i0 + 1)) base)[(q + 1) * (s.length + 1) + (i0 + 1)
          - 2 * (s.length + 1) - 2]? = some ((D s t (i0 - 1) (q - 1) : Nat) : Int)) := by
  have hKlt : (q + 1) * (s.length + 1) + (i0 + 1) < L :=
    Nat.lt_of_lt_of_le (flat_lt (by omega) (by omega)) hL
  constructor
  · rw [List.getElem?_set, if_pos rfl, if_pos (by omega)]
  · intro hi0 hq0
    obtain ⟨i1, rfl⟩ : ∃ i1, i0 = i1 + 1 := ⟨i0 - 1, by omega⟩
    obtain ⟨q1, rfl⟩ : ∃ q1, q = q1 + 1 := ⟨q - 1, by omega⟩
    have hidx : (q1 + 1 + 1) * (s.length + 1) + (i1 + 1 + 1) - 2 * (s.length + 1) - 2
        = q1 * (s.length + 1) + i1 := by
      simp only [Nat.add_mul, Nat.one_mul]; omega
    refine ⟨by simp only [Nat.add_mul, Nat.one_mul]; omega, ?_⟩
    rw [hidx, List.getElem?_set, if_neg (by simp only [Nat.add_mul, Nat.one_mul]; omega)]
    exact hknown i1 q1 (by omega) (by omega) (Or.inr (Or.inr (Or.inl (by omega))))

theorem damerauInclusionFixed_eq {α : Type} [DecidableEq α] (s t : List α) (N i0 q : Nat)
    (hi : i0 < s.length) (hq : q < t.length) (d1 : List Int) (K : Nat)
    (base : Nat) (hbase : d1[K]? = some (base : Int))
    (hdiag : 0 < i0 → 0 < q → 2 * N + 2 ≤ K ∧
      d1[K - 2 * N - 2]? = some ((D s t (i0 - 1) (q - 1) : Nat) : Int))
    (hle : 0 < i0 → 0 < q → s[i0]? = t[q - 1]? → s[i0 - 1]? = t[q]? → s[i0]? = t[q]? →
      base ≤ D s t (i0 - 1) (q - 1)) :
    damerauInclusionFixed s t (N : Int) ((i0 + 1 : Nat) : Int) (1 + (q : Int)) (K : Int)
        (q : Int) (i0 : Int) d1
      = damerauInclusion s t (N : Int) ((i0 + 1 : Nat) : Int) (1 + (q : Int)) (K : Int)
        (q : Int) (i0 : Int) d1 := by
  have hsi : s[i0]? = some (s[i0]) := List.getElem?_eq_getElem hi
  have htq : t[q]? = some (t[q]) := List.getElem?_eq_getElem hq
  have e1 : readElem s (i0 : Int) = some (s[i0]) := by
    rw [readElem_of_eq s _ i0 rfl, hsi]
  have e2 : readElem t (q : Int) = some (t[q]) := by
    rw [readElem_of_eq t _ q rfl, htq]
  unfold damerauInclusionFixed damerauInclusion
  by_cases hc : 0 < i0 ∧ 0 < q
  · obtain ⟨hi0, hq0⟩ := hc
    obtain ⟨hKge, hdg⟩ := hdiag hi0 hq0
    have hsi1 : s[i0 - 1]? = some (s[i0 - 1]) := List.getElem?_eq_getElem (by omega)
    have htq1 : t[q - 1]? = some (t[q - 1]) := List.getElem?_eq_getElem (by omega)
    have e3 : readElem t ((q : Int) - 1) = some (t[q - 1]) := by
      rw [readElem_of_eq t _ (q - 1) (by omega), htq1]
    have e4 : readElem s ((i0 : Int) - 1) = some (s[i0 - 1]) := by
      rw [readElem_of_eq s _ (i0 - 1) (by omega), hsi1]
    have r1 : readCell d1 ((K : Int) - 2 * (N : Int) - 2)
        = some ((D s t (i0 - 1) (q - 1) : Nat) : Int) := by
      rw [readCell_of_eq d1 _ (K - 2 * N - 2) (by omega), hdg]
    have r2 : readCell d1 (K : Int) = some (base : Int) := by
      rw [readCell_nat, hbase]
    have hle' := hle hi0 hq0
    rw [hsi, htq, hsi1, htq1] at hle'
    simp only [Option.some.injEq] at hle'
    simp only [e1, e2, e3, e4, r1, r2, Option.bind_eq_bind, Option.some_bind, Option.pure_def]
    by_cases h1 : s[i0] = t[q - 1]
    · by_cases h2 : s[i0 - 1] = t[q]
      · by_cases h3 : s[i0] = t[q]
        · have h4 := hle' h1 h2 h3
          simp only [h1, h2, h3, if_true, Int.add_zero]
          split_ifs <;> first | rfl | omega
        · simp only [h3, if_false]
      · simp only [h2, if_false]
    · simp only [h1, if_false]
  · have hc' : ¬ (((i0 + 1 : Nat) : Int) > 1 ∧ 1 + (q : Int) > 1) := by
      intro h
      apply hc
      constructor <;> omega
    rw [if_neg hc', if_neg hc']

theorem innerBodyFixed_eq {α : Type} [DecidableEq α] (s t : List α) (L i0 q : Nat)
    (hi : i0 < s.length) (hq : q < t.length) (hL : (s.length + 1) * (t.length + 1) ≤ L)
    (v : Vars) (hv : InnerInv s t L (i0 + 1) q v) :
    innerBodyFixed s t ((s.length + 1 : Nat) : Int) ((i0 + 1 : Nat) : Int) (1 + (q : Int)) v
      = innerBody s t ((s.length + 1 : Nat) : Int) ((i0 + 1 : Nat) : Int) (1 + (q : Int)) v := by
  obtain ⟨d, k, h, f, g⟩ := v
  obtain ⟨hlen, hk, hg, hf, hknown⟩ := hv
  simp only at hlen hk hg hf hknown
  have hg' : g = (i0 : Int) := by omega
  subst hk hf hg'
  obtain ⟨r1, r2, r3, e1, e2, hKlt, hKeq⟩ := innerBody_reads s t i0 q hi hq d hknown
  have hsi : s[i0]? = some (s[i0]) := List.getElem?_eq_getElem hi
  have htq : t[q]? = some (t[q]) := List.getElem?_eq_getElem hq
  simp only [innerBodyFixed, innerBody, hKeq, r1, r2, r3, e1, e2, Option.bind_eq_bind,
    Option.some_bind, Option.pure_def]
  have hcost : (((if s[i0] = t[q] then 0 else 1 : Nat)) : Int)
      = if s[i0] = t[q] then 0 else 1 := by
    split_ifs <;> rfl
  rw [← hcost, min3_cast, writeCell_of_eq d _ _ _ rfl (by omega)]
  simp only [Option.some_bind]
  obtain ⟨hbase, hdiag⟩ := innerBody_written s t L i0 q hi hq hL d hlen
    ((min (min (D s t i0 (q + 1) + 1) (D s t (i0 + 1) q + 1))
      (D s t i0 q + if s[i0] = t[q] then 0 else 1) : Nat) : Int) hknown
  rw [damerauInclusionFixed_eq s t (s.length + 1) i0 q hi hq _ _ _ hbase hdiag]
  intro hi0 hq0 h1 h2 h3
  obtain ⟨i1, rfl⟩ : ∃ i1, i0 = i1 + 1 := ⟨i0 - 1, by omega⟩
  obtain ⟨q1, rfl⟩ : ∃ q1, q = q1 + 1 := ⟨q - 1, by omega⟩
  simp only [Nat.add_sub_cancel] at h1 h2 ⊢
  have h3' : s[i1 + 1] = t[q1 + 1] := by
    rw [hsi, htq] at h3
    exact Option.some.inj h3
  have h4 : s[i1]? = t[q1]? := by rw [h2, ← h3, h1]
  have h5 := D_le_diag s t i1 q1
  rw [if_pos h4] at h5
  rw [if_pos h3']
  omega

/-- The variant with the fixed penalty fills the same matrix and ends in the
same state as `fillMatrix`, on a workspace that is large enough. -/
theorem fillMatrixFixed_eq {α : Type} [DecidableEq α] (s t : List α) (d : List Int)
    (hL : (s.length + 1) * (t.length + 1) ≤ d.length) :
    fillMatrixFixed s t ((s.length + 1 : Nat) : Int) ((t.length + 1 : Nat) : Int) d
      = fillMatrix s t ((s.length + 1 : Nat) : Int) ((t.length + 1 : Nat) : Int) d := by
  rw [← fillMatrix_congr s t d (innerBodyFixed s t ((s.length + 1 : Nat) : Int)) hL
    (fun i0 q v hi hq hv => innerBodyFixed_eq s t d.length i0 q hi hq hL v hv)]
  rfl

/-! ## The 32-bit run -/

theorem wrap32_eq (x : Int) (h1 : -2147483648 ≤ x) (h2 : x < 2147483648) : wrap32 x = x := by
  unfold wrap32
  omega

theorem damerauInclusion32_eq {α : Type} [DecidableEq α] (s t : List α) (N i0 q : Nat)
    (hi : i0 < s.length) (hq : q < t.length)
    (hs : s.length ≤ 1073741824) (ht : t.length ≤ 1073741824) (d1 : List Int) (K : Nat)
    (hx : 0 < i0 → 0 < q → ∀ x, readCell d1 ((K : Int) - 2 * (N : Int) - 2) = some x →
      -2147483648 ≤ x ∧ x < 2147483647) :
    damerauInclusion32 s t (N : Int) ((i0 + 1 : Nat) : Int) (1 + (q : Int)) (K : Int)
        (q : Int) (i0 : Int) d1
      = damerauInclusion s t (N : Int) ((i0 + 1 : Nat) : Int) (1 + (q : Int)) (K : Int)
        (q : Int) (i0 : Int) d1 := by
  have g1 : -2147483648 ≤ (q : Int) - 1 := by omega
  have g2 : (q : Int) - 1 < 2147483648 := by omega
  have g3 : -2147483648 ≤ (i0 : Int) - 1 := by omega
  have g4 : (i0 : Int) - 1 < 2147483648 := by omega
  unfold damerauInclusion32 damerauInclusion
  rw [wrap32_eq _ g1 g2, wrap32_eq _ g3 g4]
  by_cases hc : ((i0 + 1 : Nat) : Int) > 1 ∧ 1 + (q : Int) > 1
  swap
  · rw [if_neg hc, if_neg hc]
  cases hr : readCell d1 ((K : Int) - 2 * (N : Int) - 2) with
  | none => simp only [Option.bind_eq_bind, Option.none_bind]
  | some x =>
    have hb := hx (by omega) (by omega) x hr
    have w3 : ∀ c : Int, (c = 0 ∨ c = 1) → wrap32 (x + c) = x + c := by
      intro c hc
      exact wrap32_eq _ (by omega) (by omega)
    have w4 : ∀ (a b : α), wrap32 (x + if a = b then 0 else 1) = x + if a = b then 0 else 1 := by
      intro a b
      apply w3
      split_ifs
      · exact Or.inl rfl
      · exact Or.inr rfl
    simp only [Option.bind_eq_bind, Option.some_bind, w4]

/-- Lengths whose matrix has at most `2 ^ 31` cells are at most `2 ^ 30`. -/
theorem length_le_of_cells {n m : Nat} (hn : 0 < n) (hm : 0 < m)
    (hB : (n + 1) * (m + 1) ≤ 2147483648) : n ≤ 1073741824 ∧ m ≤ 1073741824 := by
  have h1 : (n + 1) * 2 ≤ (n + 1) * (m + 1) := Nat.mul_le_mul_left _ (by omega)
  have h2 : 2 * (m + 1) ≤ (n + 1) * (m + 1) := Nat.mul_le_mul_right _ (by omega)
  omega

theorem innerBody32_eq {α : Type} [DecidableEq α] (s t : List α) (L i0 q : Nat)
    (hi : i0 < s.length) (hq : q < t.length) (hL : (s.length + 1) * (t.length + 1) ≤ L)
    (hB : (s.length + 1) * (t.length + 1) ≤ 2147483648)
    (v : Vars) (hv : InnerInv s t L (i0 + 1) q v) :
    innerBody32 s t ((s.length + 1 : Nat) : Int) ((i0 + 1 : Nat) : Int) (1 + (q : Int)) v
      = innerBody s t ((s.length + 1 : Nat) : Int) ((i0 + 1 : Nat) : Int) (1 + (q : Int)) v := by
  obtain ⟨d, k, h, f, g⟩ := v
  obtain ⟨hlen, hk, hg, hf, hknown⟩ := hv
  simp only at hlen hk hg hf hknown
  have hg' : g = (i0 : Int) := by omega
  subst hk hf hg'
  obtain ⟨r1, r2, r3, e1, e2, hKlt, hKeq⟩ := innerBody_reads s t i0 q hi hq d hknown
  obtain ⟨hs, ht⟩ := length_le_of_cells (by omega) (by omega) hB
  have b1 := D_le_max s t (i0 + 1) q
  have b2 := D_le_max s t i0 (q + 1)
  have b3 := D_le_max s t i0 q
  have hK0 : q * (s.length + 1) + (i0 + 1) < (q + 1) * (s.length + 1) + (i0 + 1) := by
    rw [Nat.succ_mul]; omega
  have gK : (((q + 1) * (s.length + 1) + (i0 + 1) : Nat) : Int) < 2147483648 := by omega
  have gK0 : ((q * (s.length + 1) + (i0 + 1) : Nat) : Int) < 2147483648 := by omega
  have ga : ((D s t (i0 + 1) q : Nat) : Int) + 1 < 2147483648 := by omega
  have gb : ((D s t i0 (q + 1) : Nat) : Int) + 1 < 2147483648 := by omega
  have gc : ((D s t i0 q : Nat) : Int) + 1 < 2147483648 := by omega
  have gc' : ((D s t i0 q : Nat) : Int) + (if s[i0] = t[q] then 0 else 1) < 2147483648 := by
    split_ifs <;> omega
  have gc'' : -2147483648 ≤ ((D s t i0 q : Nat) : Int) + (if s[i0] = t[q] then 0 else 1) := by
    split_ifs <;> omega
  have pK : (0 : Int) ≤ (((q + 1) * (s.length + 1) + (i0 + 1) : Nat) : Int) := Int.ofNat_nonneg _
  have pK0 : (0 : Int) ≤ ((q * (s.length + 1) + (i0 + 1) : Nat) : Int) := Int.ofNat_nonneg _
  have pa : (0 : Int) ≤ ((D s t (i0 + 1) q : Nat) : Int) := Int.ofNat_nonneg _
  have pb : (0 : Int) ≤ ((D s t i0 (q + 1) : Nat) : Int) := Int.ofNat_nonneg _
  have hwrite : (q + 1) * (s.length + 1) + (i0 + 1) < d.length := by omega
  have wK : wrap32 (((q + 1) * (s.length + 1) + (i0 + 1) : Nat) : Int)
      = (((q + 1) * (s.length + 1) + (i0 + 1) : Nat) : Int) :=
    wrap32_eq _ (Int.le_trans (by decide) pK) gK
  have wK1 : wrap32 ((((q + 1) * (s.length + 1) + (i0 + 1) : Nat) : Int) - 1)
      = (((q + 1) * (s.length + 1) + (i0 + 1) : Nat) : Int) - 1 :=
    wrap32_eq _ (Int.le_trans (by decide) (Int.sub_le_sub_right pK 1))
      (Int.lt_trans (Int.sub_lt_self _ (by decide)) gK)
  have wK0 : wrap32 (((q * (s.length + 1) + (i0 + 1) : Nat) : Int) - 1)
      = ((q * (s.length + 1) + (i0 + 1) : Nat) : Int) - 1 :=
    wrap32_eq _ (Int.le_trans (by decide) (Int.sub_le_sub_right pK0 1))
      (Int.lt_trans (Int.sub_lt_self _ (by decide)) gK0)
  have wa : wrap32 (((D s t (i0 + 1) q : Nat) : Int) + 1) = ((D s t (i0 + 1) q : Nat) : Int) + 1 :=
    wrap32_eq _ (Int.le_trans (by decide) (Int.add_le_add_right pa 1)) ga
  have wb : wrap32 (((D s t i0 (q + 1) : Nat) : Int) + 1) = ((D s t i0 (q + 1) : Nat) : Int) + 1 :=
    wrap32_eq _ (Int.le_trans (by decide) (Int.add_le_add_right pb 1)) gb
  have wc : wrap32 (((D s t i0 q : Nat) : Int) + if s[i0] = t[q] then 0 else 1)
      = ((D s t i0 q : Nat) : Int) + if s[i0] = t[q] then 0 else 1 :=
    wrap32_eq _ gc'' gc'
  simp only [innerBody32, innerBody, hKeq, wK, wK1, wK0, r1, r2, r3, e1, e2, wa, wb, wc,
    Option.bind_eq_bind, Option.some_bind, Option.pure_def]
  have hcost : (((if s[i0] = t[q] then 0 else 1 : Nat)) : Int)
      = if s[i0] = t[q] then 0 else 1 := by
    split_ifs <;> rfl
  clear wK wK1 wK0 wa wb wc
  rw [← hcost, min3_cast, writeCell_of_eq d _ _ _ rfl hwrite]
  simp only [Option.some_bind]
  rw [damerauInclusion32_eq s t (s.length + 1) i0 q hi hq hs ht]
  intro hi0 hq0 x hx
  obtain ⟨_, hdiag⟩ := innerBody_written s t L i0 q hi hq hL d hlen
    ((min (min (D s t i0 (q + 1) + 1) (D s t (i0 + 1) q + 1))
      (D s t i0 q + if s[i0] = t[q] then 0 else 1) : Nat) : Int) hknown
  obtain ⟨hKge, hdg⟩ := hdiag hi0 hq0
  rw [readCell_of_eq _ _ ((q + 1) * (s.length + 1) + (i0 + 1) - 2 * (s.length + 1) - 2)
    (by omega), hdg] at hx
  have hx' := Option.some.inj hx
  have b4 := D_le_max s t (i0 - 1) (q - 1)
  omega

/-- The 32-bit run fills the same matrix and ends in the same state as the
exact run when the matrix has at most `2 ^ 31` cells. -/
theorem fillMatrix32_eq {α : Type} [DecidableEq α] (s t : List α) (d : List Int)
    (hL : (s.length + 1) * (t.length + 1) ≤ d.length)
    (hB : (s.length + 1) * (t.length + 1) ≤ 2147483648) :
    fillMatrix32 s t ((s.length + 1 : Nat) : Int) ((t.length + 1 : Nat) : Int) d
      = fillMatrix s t ((s.length + 1 : Nat) : Int) ((t.length + 1 : Nat) : Int) d := by
  rw [← fillMatrix_congr s t d (innerBody32 s t ((s.length + 1 : Nat) : Int)) hL
    (fun i0 q v hi hq hv => innerBody32_eq s t d.length i0 q hi hq hL hB v hv)]
  rfl

/-- The 32-bit call and the exact call agree when the matrix has at most
`2 ^ 31` cells and the workspace holds it. -/
theorem dameraulevenshtein32_eq {α : Type} [DecidableEq α] (s t : List α) (d : List Int)
    (hL : (s.length + 1) * (t.length + 1) ≤ d.length)
    (hB : (s.length + 1) * (t.length + 1) ≤ 2147483648) :
    dameraulevenshtein32 d (UDF_ARGS.ofStrings s t)
      = dameraulevenshtein d (UDF_ARGS.ofStrings s t) := by
  have h := fillMatrix32_eq s t d hL hB
  have hN : ((s.length + 1 : Nat) : Int) = (s.length : Int) + 1 := by omega
  have hM : ((t.length + 1 : Nat) : Int) = (t.length : Int) + 1 := by omega
  rw [hN, hM] at h
  simp only [dameraulevenshtein32, dameraulevenshtein, UDF_ARGS.ofStrings, h]

/-! ## The 32-bit run beyond `2 ^ 31` cells -/

theorem innerBody32_k {α : Type} [DecidableEq α] (s t : List α) (n i j : Int) (v v' : Vars)
    (h : innerBody32 s t n i j v = some v') : v'.k = wrap32 (v.k + n) := by
  simp only [innerBody32, Option.bind_eq_bind, Option.bind_eq_some, Option.pure_def,
    Option.some.injEq] at h
  obtain ⟨_, _, _, _, _, _, _, _, _, _, _, _, _, _, h⟩ := h
  rw [← h]

theorem innerBody32_fault {α : Type} [DecidableEq α] (s t : List α) (n i j : Int) (v : Vars)
    (h : wrap32 (wrap32 (v.k + n) - 1) < 0) : innerBody32 s t n i j v = none := by
  have hr : readCell v.d (wrap32 (wrap32 (v.k + n) - 1)) = none := by
    unfold readCell
    rw [if_neg (not_le.mpr h)]
  cases hd : readCell v.d v.k with
  | none => simp only [innerBody32, hd, Option.bind_eq_bind, Option.none_bind]
  | some dh =>
    simp only [innerBody32, hd, hr, Option.bind_eq_bind, Option.some_bind, Option.none_bind]

theorem forLoop_succ {σ : Type} (body : Int → σ → Option σ) (c : Nat) (x : Int) (st : σ) :
    forLoop body (c + 1) x st = (body x st).bind (forLoop body c (x + 1)) := rfl

/-- With 46341 columns, in the first round of the loop over `i`: after 46340
rounds of the loop over `j` the index `k` is `46340 * 46341 + 1`, and the next
`k += n` stores `-2147479014` in the place of `46341 * 46341 + 1`. -/
theorem innerLoop32_k {α : Type} [DecidableEq α] (s t : List α) (v v1 : Vars)
    (hrun : forLoop (innerBody32 s t 46341 1) 46340 1 { v with k := 1, f := 0 } = some v1) :
    v1.k = 46340 * 46341 + 1 ∧ v1.k + 46341 = 46341 * 46341 + 1 ∧
      wrap32 (v1.k + 46341) = -2147479014 := by
  have hk := forLoop_some_invariant (innerBody32 s t 46341 1)
    (fun r w => w.k = 1 + (r : Int) * 46341) 1 46340 0 { v with k := 1, f := 0 } v1
    (by simp)
    (by
      intro r w w' _ hr hw hstep
      have hw' := innerBody32_k s t 46341 1 _ w w' hstep
      have hw0 : w.k = 1 + (r : Int) * 46341 := hw
      have g1 : -2147483648 ≤ w.k + 46341 := by omega
      have g2 : w.k + 46341 < 2147483648 := by omega
      have g3 : w.k + 46341 = 1 + ((r + 1 : Nat) : Int) * 46341 := by omega
      rw [wrap32_eq _ g1 g2, g3] at hw'
      exact hw')
    (by simpa using hrun)
  have hk' : v1.k = 2147441941 := by
    rw [hk]
    decide
  rw [hk']
  decide

/-- With 46341 columns, round 46341 of the loop over `j` faults in the very
first round of the loop over `i`: the value `46341 * 46341 + 1` of `k` does not
fit into 32 bits. -/
theorem outerBody32_overflow {α : Type} [DecidableEq α] (s t : List α) (n m : Int)
    (hn : n = 46341) (hm : m = 46342) (v : Vars) : outerBody32 s t n m 1 v = none := by
  subst hn hm
  have hc : ((46342 : Int) - 1).toNat = 46340 + 1 := by decide
  unfold outerBody32
  rw [hc, forLoop_add]
  cases hrun : forLoop (innerBody32 s t 46341 1) 46340 1 { v with k := 1, f := 0 } with
  | none => simp only [Option.bind_eq_bind, Option.none_bind]
  | some v1 =>
    obtain ⟨_, _, hw⟩ := innerLoop32_k s t v v1 hrun
    have hf : innerBody32 s t 46341 1 (1 + ((46340 : Nat) : Int)) v1 = none := by
      apply innerBody32_fault
      rw [hw]
      decide
    rw [Option.bind_eq_bind, Option.some_bind, forLoop_succ _ 0, hf]
    rfl

theorem fillMatrix32_overflow {α : Type} [DecidableEq α] (s t : List α) (n m : Int)
    (hn : n = 46341) (hm : m = 46342) (d : List Int) : fillMatrix32 s t n m d = none := by
  have hc : (n - 1).toNat = 46339 + 1 := by
    subst hn
    decide
  unfold fillMatrix32
  rw [hc]
  cases h1 : initRow n d with
  | none => simp only [Option.bind_eq_bind, Option.none_bind]
  | some d1 =>
    cases h2 : initColumn n m d1 with
    | none => simp only [h2, Option.bind_eq_bind, Option.some_bind, Option.none_bind]
    | some d2 =>
      simp only [h2, Option.bind_eq_bind, Option.some_bind]
      rw [forLoop_succ, outerBody32_overflow s t n m hn hm]
      rfl

/-! ## The claims, continued -/

/-- C11, as stated, fails: the call on "ca" and "abc" returns the plain
Levenshtein distance of "ca" and "abc". -/
theorem levenshtein_divergence_counterexample :
    distance (List.replicate 12 0) ['c', 'a'] ['a', 'b', 'c']
      = levenshtein (List.replicate 12 0) ['c', 'a'] ['a', 'b', 'c'] := by
  decide

/-- C11, amended: on "ca" and "abc" the call returns 3, which is the plain
Levenshtein distance, 3; the two distances differ on "ab" and "ba", 1 against
2, where the transposition applies to the whole of both strings. -/
theorem dameraulevenshtein_levenshtein_examples :
    distance (List.replicate 12 0) ['c', 'a'] ['a', 'b', 'c'] = some 3 ∧
    levenshtein (List.replicate 12 0) ['c', 'a'] ['a', 'b', 'c'] = some 3 ∧
    distance (List.replicate 9 0) ['a', 'b'] ['b', 'a'] = some 1 ∧
    levenshtein (List.replicate 9 0) ['a', 'b'] ['b', 'a'] = some 2 := by
  refine ⟨by decide, by decide, by decide, by decide⟩

/-- C12 fails on strings of 46340 and of 46341 elements: with the `int`
variables of 32 bits the call faults on every workspace, as at the cell
`(1, 46341)` the statement `k += n` stores `-2147479014` in the place of
`j * (n + 1) + i = 46341 * 46341 + 1` and the read `d[k - 1]` is out of bounds;
with exact integers and a workspace that holds the matrix the call returns
`D(n, m)`. -/
theorem dameraulevenshtein32_overflow {α : Type} [DecidableEq α] (s t : List α)
    (d : List Int) (hs : s.length = 46340) (ht : t.length = 46341) :
    dameraulevenshtein32 d (UDF_ARGS.ofStrings s t) = none ∧
    (∀ v v1 : Vars,
      forLoop (innerBody32 s t 46341 1) 46340 1 { v with k := 1, f := 0 } = some v1 →
      v1.k + 46341 = 46341 * 46341 + 1 ∧ wrap32 (v1.k + 46341) = -2147479014) ∧
    ((s.length + 1) * (t.length + 1) ≤ d.length →
      distance d s t = some ((D s t s.length t.length : Nat) : Int)) := by
  refine ⟨?_, fun v v1 h => (innerLoop32_k s t v v1 h).2, fun hL => distance_eq s t d hL⟩
  have hn : ((s.length : Nat) : Int) ≠ 0 := by omega
  have hm : ((t.length : Nat) : Int) ≠ 0 := by omega
  have hf := fillMatrix32_overflow s t ((s.length : Int) + 1) ((t.length : Int) + 1)
    (by omega) (by omega) d
  simp only [dameraulevenshtein32, UDF_ARGS.ofStrings, ne_eq, hn, hm, not_false_eq_true,
    and_self, if_true, hf, Option.bind_eq_bind, Option.none_bind]

theorem dameraulevenshtein32_overflow_witness :
    dameraulevenshtein32 (List.replicate (46341 * 46342) 0)
      (UDF_ARGS.ofStrings (List.replicate 46340 'a') (List.replicate 46341 'b')) = none :=
  (dameraulevenshtein32_overflow (List.replicate 46340 'a') (List.replicate 46341 'b')
    (List.replicate (46341 * 46342) 0) (List.length_replicate _ _)
    (List.length_replicate _ _)).1

/-- C13: with a workspace that is large enough, the variant whose swap
candidate is `d[i-2][j-2] + 1` returns the same value as the call and leaves
the same matrix behind. -/
theorem dameraulevenshteinFixed_same {α : Type} [DecidableEq α] (s t : List α)
    (d : List Int) (hL : (s.length + 1) * (t.length + 1) ≤ d.length) :
    dameraulevenshteinFixed d (UDF_ARGS.ofStrings s t)
      = dameraulevenshtein d (UDF_ARGS.ofStrings s t) := by
  have h := fillMatrixFixed_eq s t d hL
  have hN : ((s.length + 1 : Nat) : Int) = (s.length : Int) + 1 := by omega
  have hM : ((t.length + 1 : Nat) : Int) = (t.length : Int) + 1 := by omega
  rw [hN, hM] at h
  simp only [dameraulevenshteinFixed, dameraulevenshtein, UDF_ARGS.ofStrings, h]

theorem dameraulevenshteinFixed_same_witness :
    dameraulevenshteinFixed (List.replicate 9 0) (UDF_ARGS.ofStrings ['a', 'a'] ['a', 'a'])
      = dameraulevenshtein (List.replicate 9 0) (UDF_ARGS.ofStrings ['a', 'a'] ['a', 'a']) :=
  dameraulevenshteinFixed_same ['a', 'a'] ['a', 'a'] (List.replicate 9 0) (by decide)

/-- C15: the returned value is the same for any two initial contents of a
workspace that is large enough, and it is the same on the workspace that an
earlier call has left behind. -/
theorem dameraulevenshtein_workspace_independent {α : Type} [DecidableEq α] (s t : List α)
    (d1 d2 : List Int) (h1 : (s.length + 1) * (t.length + 1) ≤ d1.length)
    (h2 : (s.length + 1) * (t.length + 1) ≤ d2.length) :
    distance d1 s t = distance d2 s t ∧
    ∀ (s0 t0 : List α) (r : Int) (d' : List Int),
      (s0.length + 1) * (t0.length + 1) ≤ d1.length →
      dameraulevenshtein d1 (UDF_ARGS.ofStrings s0 t0) = some (r, d') →
      distance d' s t = distance d1 s t := by
  refine ⟨distance_workspace s t d1 d2 h1 h2, ?_⟩
  intro s0 t0 r d' h0 hcall
  have hlen := dameraulevenshtein_length s0 t0 d1 d' r h0 hcall
  exact distance_workspace s t d' d1 (by rw [hlen]; exact h1) h1

theorem dameraulevenshtein_workspace_independent_witness :
    distance (List.replicate 9 0) ['a', 'b'] ['b', 'a']
      = distance [5, -3, 8, 1, 1, 0, 9, 9, 2, 4] ['a', 'b'] ['b', 'a'] :=
  (dameraulevenshtein_workspace_independent ['a', 'b'] ['b', 'a'] (List.replicate 9 0)
    [5, -3, 8, 1, 1, 0, 9, 9, 2, 4] (by decide) (by decide)).1

/-- C16: when an argument is empty (NULL, or of length 0) the call leaves the
workspace as it was, and it returns the same value on a workspace without any
cell, on which every access would fault. -/
theorem dameraulevenshtein_fast_path_frame {α : Type} [DecidableEq α] (d : List Int)
    (args : UDF_ARGS α)
    (h : (args.args0 = none ∨ args.lengths0 = 0) ∨ (args.args1 = none ∨ args.lengths1 = 0)) :
    ∃ r, dameraulevenshtein d args = some (r, d) ∧ dameraulevenshtein [] args = some (r, []) := by
  have key : ∀ w : List Int, dameraulevenshtein w args
      = some ((if (match args.args0 with | none => (0 : Int) | some _ => (args.lengths0 : Int)) = 0
          then (match args.args1 with | none => (0 : Int) | some _ => (args.lengths1 : Int))
          else (match args.args0 with | none => (0 : Int) | some _ => (args.lengths0 : Int))),
        w) := by
    intro w
    have hnm : ¬ ((match args.args0 with | none => (0 : Int) | some _ => (args.lengths0 : Int)) ≠ 0
        ∧ (match args.args1 with | none => (0 : Int) | some _ => (args.lengths1 : Int)) ≠ 0) := by
      rintro ⟨hn, hm⟩
      rcases h with (h | h) | (h | h)
      · rw [h] at hn
        exact hn rfl
      · rw [h] at hn
        cases h0 : args.args0 <;> rw [h0] at hn <;> exact hn rfl
      · rw [h] at hm
        exact hm rfl
      · rw [h] at hm
        cases h1 : args.args1 <;> rw [h1] at hm <;> exact hm rfl
    unfold dameraulevenshtein
    simp only [if_neg hnm]
    split_ifs <;> rfl
  exact ⟨_, key d, key []⟩

theorem dameraulevenshtein_fast_path_frame_witness :
    ∃ r, dameraulevenshtein [4, 4, 4] (UDF_ARGS.mk (some ['a', 'b']) none 2 7) = some (r, [4, 4, 4])
      ∧ dameraulevenshtein [] (UDF_ARGS.mk (some ['a', 'b']) none 2 7) = some (r, []) :=
  dameraulevenshtein_fast_path_frame [4, 4, 4] (UDF_ARGS.mk (some ['a', 'b']) none 2 7)
    (Or.inr (Or.inl rfl))

/-- C19: the triangle inequality fails: on every workspace of at least 12
cells the call returns 3 on "ca" and "abc", 1 on "ca" and "ac", and 1 on "ac"
and "abc". -/
theorem dameraulevenshtein_triangle_fails (d : List Int) (hL : 12 ≤ d.length) :
    ∃ x y z : Int, distance d ['c', 'a'] ['a', 'b', 'c'] = some x ∧
      distance d ['c', 'a'] ['a', 'c'] = some y ∧
      distance d ['a', 'c'] ['a', 'b', 'c'] = some z ∧ x > y + z := by
  have hx : distance (List.replicate 12 0) ['c', 'a'] ['a', 'b', 'c'] = some 3 := by decide
  have hy : distance (List.replicate 12 0) ['c', 'a'] ['a', 'c'] = some 1 := by decide
  have hz : distance (List.replicate 12 0) ['a', 'c'] ['a', 'b', 'c'] = some 1 := by decide
  refine ⟨3, 1, 1, ?_, ?_, ?_, by decide⟩
  · rw [distance_workspace ['c', 'a'] ['a', 'b', 'c'] d (List.replicate 12 0) hL (by decide)]
    exact hx
  · rw [distance_workspace ['c', 'a'] ['a', 'c'] d (List.replicate 12 0)
      (Nat.le_trans (by decide) hL) (by decide)]
    exact hy
  · rw [distance_workspace ['a', 'c'] ['a', 'b', 'c'] d (List.replicate 12 0) hL (by decide)]
    exact hz

theorem dameraulevenshtein_triangle_fails_witness :
    ∃ x y z : Int, distance (List.replicate 12 5) ['c', 'a'] ['a', 'b', 'c'] = some x ∧
      distance (List.replicate 12 5) ['c', 'a'] ['a', 'c'] = some y ∧
      distance (List.replicate 12 5) ['a', 'c'] ['a', 'b', 'c'] = some z ∧ x > y + z :=
  dameraulevenshtein_triangle_fails (List.replicate 12 5) (by decide)

/-- C20 fails on a first argument of 1000 elements and an empty second one:
`dameraulevenshtein_init` declares `max_length = 3`, and the call returns
1000, which has four digits. -/
theorem dameraulevenshtein_exceeds_max_length :
    ∃ initid, dameraulevenshtein_init (fun size => some (List.replicate size 0)) 2
        [Item_result.STRING_RESULT, Item_result.STRING_RESULT] 1000 0 = Except.ok initid ∧
      initid.max_length = 3 ∧
      (dameraulevenshtein initid.ptr
        (UDF_ARGS.ofStrings (List.replicate 1000 'a') [])).map Prod.fst = some 1000 ∧
      ¬ ((1000 : Int) < 10 ^ initid.max_length) := by
  refine ⟨⟨false, 3, List.replicate 1001 0⟩, rfl, rfl, ?_, by decide⟩
  have hlen : (List.replicate 1000 'a').length = 1000 := List.length_replicate _ _
  have c1 : ¬ (((1000 : Nat) : Int) ≠ 0 ∧ ((0 : Nat) : Int) ≠ 0) := by decide
  have c2 : ¬ (((1000 : Nat) : Int) = 0) := by decide
  simp only [dameraulevenshtein, UDF_ARGS.ofStrings, hlen, List.length_nil, if_neg c1, if_neg c2]
  rfl

/-! ## The 32-bit run, in general -/

theorem writeCell_some (d d' : List Int) (k x : Int) (h : writeCell d k x = some d') :
    0 ≤ k ∧ k.toNat < d.length ∧ d'.length = d.length := by
  unfold writeCell at h
  by_cases hc : 0 ≤ k ∧ k.toNat < d.length
  · rw [if_pos hc] at h
    refine ⟨hc.1, hc.2, ?_⟩
    rw [← Option.some.inj h, List.length_set]
  · rw [if_neg hc] at h
    exact absurd h (by simp)

/-- A round of the 32-bit body that does not fault has stored a `k` that is
not negative. -/
theorem innerBody32_write {α : Type} [DecidableEq α] (s t : List α) (n i j : Int)
    (v v' : Vars) (h : innerBody32 s t n i j v = some v') :
    v'.k = wrap32 (v.k + n) ∧ 0 ≤ v'.k := by
  simp only [innerBody32, Option.bind_eq_bind, Option.bind_eq_some, Option.pure_def,
    Option.some.injEq] at h
  obtain ⟨_, _, _, _, _, _, _, _, _, _, d1, hw, _, _, h⟩ := h
  have hk : v'.k = wrap32 (v.k + n) := by rw [← h]
  refine ⟨hk, ?_⟩
  rw [hk]
  exact (writeCell_some _ _ _ _ hw).1

/-- The loop over `j` of the 32-bit run faults in a round of the loop over `i`
in which the index of the last cell does not fit into 32 bits. -/
theorem innerLoop32_beyond {α : Type} [DecidableEq α] (s t : List α) (N i : Int) (c : Nat)
    (v : Vars) (hi0 : 0 ≤ i) (hi : i < 2147483648) (hN0 : 0 ≤ N) (hN : N < 2147483648)
    (hover : 2147483648 ≤ i + (c : Int) * N) :
    forLoop (innerBody32 s t N i) c 1 { v with k := i, f := 0 } = none := by
  cases hrun : forLoop (innerBody32 s t N i) c 1 { v with k := i, f := 0 } with
  | none => rfl
  | some v1 =>
    exfalso
    have hk := forLoop_some_invariant (innerBody32 s t N i)
      (fun r w => w.k = i + (r : Int) * N ∧ w.k < 2147483648 ∧ 0 ≤ w.k) 1 c 0
      { v with k := i, f := 0 } v1
      (by
        refine ⟨?_, hi, hi0⟩
        show i = i + ((0 : Nat) : Int) * N
        rw [Int.ofNat_zero, Int.zero_mul, Int.add_zero])
      (by
        intro r w w' _ _ hw hstep
        obtain ⟨hw1, hw2, hw3⟩ := hw
        obtain ⟨hk', hnn⟩ := innerBody32_write s t N i _ w w' hstep
        have e : ((r + 1 : Nat) : Int) * N = (r : Int) * N + N := by
          push_cast
          ring
        unfold wrap32 at hk'
        refine ⟨?_, ?_, hnn⟩
        · rw [e]
          omega
        · omega)
      (by simpa using hrun)
    obtain ⟨h1, h2, _⟩ := hk
    rw [Nat.zero_add] at h1
    omega

theorem fillMatrix32_beyond {α : Type} [DecidableEq α] (s t : List α) (d : List Int)
    (hs : 0 < s.length) (hn : s.length + 1 < 2147483648)
    (hover : 2147483648 < (s.length + 1) * (t.length + 1)) :
    fillMatrix32 s t ((s.length + 1 : Nat) : Int) ((t.length + 1 : Nat) : Int) d = none := by
  have hc : (((s.length + 1 : Nat) : Int) - 1).toNat = (s.length - 1) + 1 := by omega
  have hm : (((t.length + 1 : Nat) : Int) - 1).toNat = t.length := by omega
  have hmul : (s.length + 1) * (t.length + 1) = t.length * (s.length + 1) + (s.length + 1) := by
    ring
  have hnat : 2147483648 ≤ s.length + t.length * (s.length + 1) := by omega
  have hint : (2147483648 : Int)
      ≤ (1 + ((s.length - 1 : Nat) : Int)) + (t.length : Int) * ((s.length + 1 : Nat) : Int) := by
    have h1 : (1 : Int) + ((s.length - 1 : Nat) : Int) = (s.length : Int) := by omega
    rw [h1]
    exact_mod_cast hnat
  have hlast : ∀ v : Vars,
      outerBody32 s t ((s.length + 1 : Nat) : Int) ((t.length + 1 : Nat) : Int)
        (1 + ((s.length - 1 : Nat) : Int)) v = none := by
    intro v
    unfold outerBody32
    rw [hm, innerLoop32_beyond s t _ _ t.length v (by omega) (by omega) (by omega) (by omega) hint]
    rfl
  unfold fillMatrix32
  rw [hc]
  cases h1 : initRow ((s.length + 1 : Nat) : Int) d with
  | none => simp only [Option.bind_eq_bind, Option.none_bind]
  | some d1 =>
    cases h2 : initColumn ((s.length + 1 : Nat) : Int) ((t.length + 1 : Nat) : Int) d1 with
    | none => simp only [h2, Option.bind_eq_bind, Option.some_bind, Option.none_bind]
    | some d2 =>
      simp only [h2, Option.bind_eq_bind, Option.some_bind]
      rw [forLoop_add]
      cases h3 : forLoop
          (outerBody32 s t ((s.length + 1 : Nat) : Int) ((t.length + 1 : Nat) : Int))
          (s.length - 1) 1
          { d := d2, k := ((t.length + 1 : Nat) : Int), h := 0, f := 0, g := 0 } with
      | none => rfl
      | some v =>
        rw [Option.some_bind, forLoop_succ _ 0, hlast v]
        rfl

/-- On non-empty strings whose matrix has more than `2 ^ 31` cells the 32-bit
call faults, on every workspace. -/
theorem dameraulevenshtein32_beyond {α : Type} [DecidableEq α] (s t : List α) (d : List Int)
    (hs : s ≠ []) (ht : t ≠ []) (hn : s.length + 1 < 2147483648)
    (hover : 2147483648 < (s.length + 1) * (t.length + 1)) :
    dameraulevenshtein32 d (UDF_ARGS.ofStrings s t) = none := by
  have hspos : 0 < s.length := List.length_pos.mpr hs
  have htpos : 0 < t.length := List.length_pos.mpr ht
  have hn0 : ((s.length : Nat) : Int) ≠ 0 := by omega
  have hm0 : ((t.length : Nat) : Int) ≠ 0 := by omega
  have hf := fillMatrix32_beyond s t d hspos hn hover
  have hN : ((s.length + 1 : Nat) : Int) = (s.length : Int) + 1 := by omega
  have hM : ((t.length + 1 : Nat) : Int) = (t.length : Int) + 1 := by omega
  rw [hN, hM] at hf
  simp only [dameraulevenshtein32, UDF_ARGS.ofStrings, ne_eq, hn0, hm0, not_false_eq_true,
    and_self, if_true, hf, Option.bind_eq_bind, Option.none_bind]

theorem distance32_beyond {α : Type} [DecidableEq α] (s t : List α) (d : List Int)
    (hs : s ≠ []) (ht : t ≠ []) (hn : s.length + 1 < 2147483648)
    (hover : 2147483648 < (s.length + 1) * (t.length + 1)) :
    distance32 d s t = none := by
  unfold distance32
  rw [dameraulevenshtein32_beyond s t d hs ht hn hover]
  rfl

/-- With a workspace that holds the matrix and a matrix of at most `2 ^ 31`
cells, the 32-bit call returns `D(n, m)`. -/
theorem distance32_eq {α : Type} [DecidableEq α] (s t : List α) (d : List Int)
    (hL : (s.length + 1) * (t.length + 1) ≤ d.length)
    (hB : (s.length + 1) * (t.length + 1) ≤ 2147483648) :
    distance32 d s t = some ((D s t s.length t.length : Nat) : Int) := by
  unfold distance32
  rw [dameraulevenshtein32_eq s t d hL hB]
  exact distance_eq s t d hL

/-! ## The cells of the 32-bit run -/

theorem innerLoop32_eq {α : Type} [DecidableEq α] (s t : List α) (L i0 c : Nat)
    (hi : i0 < s.length) (hc : c ≤ t.length) (hL : (s.length + 1) * (t.length + 1) ≤ L)
    (hB : (s.length + 1) * (t.length + 1) ≤ 2147483648)
    (v : Vars) (hv : InnerInv s t L (i0 + 1) 0 v) :
    forLoop (innerBody32 s t ((s.length + 1 : Nat) : Int) ((i0 + 1 : Nat) : Int)) c 1 v
      = forLoop (innerBody s t ((s.length + 1 : Nat) : Int) ((i0 + 1 : Nat) : Int)) c 1 v := by
  have h := forLoop_congr_invariant
    (innerBody s t ((s.length + 1 : Nat) : Int) ((i0 + 1 : Nat) : Int))
    (innerBody32 s t ((s.length + 1 : Nat) : Int) ((i0 + 1 : Nat) : Int))
    (fun q v => InnerInv s t L (i0 + 1) q v) 1 c 0 v hv
    (by
      intro q v1 _ hq hv1
      obtain ⟨v2, h2, hinv2, _⟩ := innerBody_spec s t L i0 q hi (by omega) hL v1 hv1
      refine ⟨v2, h2, hinv2, ?_⟩
      rw [innerBody32_eq s t L i0 q hi (by omega) hL hB v1 hv1]
      exact h2)
  simpa using h

theorem outerBody32_eq {α : Type} [DecidableEq α] (s t : List α) (L r : Nat)
    (hr : r < s.length) (hL : (s.length + 1) * (t.length + 1) ≤ L)
    (hB : (s.length + 1) * (t.length + 1) ≤ 2147483648)
    (v : Vars) (hv : OuterInv s t L r v) :
    outerBody32 s t ((s.length + 1 : Nat) : Int) ((t.length + 1 : Nat) : Int) (1 + (r : Int)) v
      = outerBody s t ((s.length + 1 : Nat) : Int) ((t.length + 1 : Nat) : Int)
        (1 + (r : Int)) v := by
  have hi : (1 : Int) + (r : Int) = ((r + 1 : Nat) : Int) := by omega
  have hm : (((t.length + 1 : Nat) : Int) - 1).toNat = t.length := by omega
  unfold outerBody32 outerBody
  rw [hi, hm, innerLoop32_eq s t L r t.length hr (Nat.le_refl _) hL hB _
    (innerInv_start s t L r v hv)]

theorem outerLoop32_eq {α : Type} [DecidableEq α] (s t : List α) (L c : Nat)
    (hc : c ≤ s.length) (hL : (s.length + 1) * (t.length + 1) ≤ L)
    (hB : (s.length + 1) * (t.length + 1) ≤ 2147483648)
    (v : Vars) (hv : OuterInv s t L 0 v) :
    forLoop (outerBody32 s t ((s.length + 1 : Nat) : Int) ((t.length + 1 : Nat) : Int)) c 1 v
      = forLoop (outerBody s t ((s.length + 1 : Nat) : Int) ((t.length + 1 : Nat) : Int))
        c 1 v := by
  have h := forLoop_congr_invariant
    (outerBody s t ((s.length + 1 : Nat) : Int) ((t.length + 1 : Nat) : Int))
    (outerBody32 s t ((s.length + 1 : Nat) : Int) ((t.length + 1 : Nat) : Int))
    (fun q v => OuterInv s t L q v) 1 c 0 v hv
    (by
      intro r v1 _ hr hv1
      obtain ⟨v2, h2, hinv2⟩ := outerBody_spec s t L r (by omega) hL v1 hv1
      refine ⟨v2, h2, hinv2, ?_⟩
      rw [outerBody32_eq s t L r (by omega) hL hB v1 hv1]
      exact h2)
  simpa using h

/-- The 32-bit run enters every cell in the state in which the exact run
enters it, when the matrix has at most `2 ^ 31` cells. -/
theorem cellEntry32_eq {α : Type} [DecidableEq α] (s t : List α) (d : List Int) (i0 q : Nat)
    (hi : i0 < s.length) (hq : q < t.length)
    (hL : (s.length + 1) * (t.length + 1) ≤ d.length)
    (hB : (s.length + 1) * (t.length + 1) ≤ 2147483648) :
    cellEntry32 s t ((s.length : Int) + 1) ((t.length : Int) + 1) d (i0 + 1) (q + 1)
      = cellEntry s t ((s.length : Int) + 1) ((t.length : Int) + 1) d (i0 + 1) (q + 1) := by
  obtain ⟨d1, d2, h1, h2, hinv⟩ := init_spec s t d hL
  obtain ⟨v0, hv0, hinv0⟩ := outerLoop_spec s t d.length i0 (by omega) hL _ hinv
  have hN : (s.length : Int) + 1 = ((s.length + 1 : Nat) : Int) := by omega
  have hM : (t.length : Int) + 1 = ((t.length + 1 : Nat) : Int) := by omega
  rw [hN, hM]
  simp only [cellEntry32, cellEntry, h1, h2, Nat.add_sub_cancel, Option.bind_eq_bind,
    Option.some_bind]
  rw [outerLoop32_eq s t d.length i0 (by omega) hL hB _ hinv, hv0]
  simp only [Option.some_bind]
  exact innerLoop32_eq s t d.length i0 q hi (by omega) hL hB _
    (innerInv_start s t d.length i0 v0 hinv0)

/-- The run of `fillMatrix32` passes through the state `cellEntry32` of every
cell `(i, j)`: it is that state, followed by the body of the loop over `j` for
the cell, followed by the rest of the two loops. -/
theorem fillMatrix32_through_cell {α : Type} [DecidableEq α] (s t : List α) (n m : Int)
    (d : List Int) (i j : Nat) (hi1 : 1 ≤ i) (hi : i ≤ (n - 1).toNat) (hj1 : 1 ≤ j)
    (hj : j ≤ (m - 1).toNat) :
    fillMatrix32 s t n m d = (cellEntry32 s t n m d i j).bind
      (fun v => (innerBody32 s t n i j v).bind (afterCell32 s t n m i j)) := by
  unfold fillMatrix32 cellEntry32
  simp only [Option.bind_eq_bind]
  cases initRow n d with
  | none => rfl
  | some d1 =>
    simp only [Option.some_bind]
    cases initColumn n m d1 with
    | none => rfl
    | some d2 =>
      simp only [Option.some_bind]
      rw [forLoop_split _ _ i 1 _ hi1 hi, Option.bind_assoc]
      congr 1
      funext v
      have e1 : (1 : Int) + (i : Int) - 1 = i := by omega
      have e2 : (1 : Int) + (i : Int) = i + 1 := by omega
      rw [e1, e2]
      simp only [outerBody32, Option.bind_eq_bind, Option.pure_def]
      rw [forLoop_split _ _ j 1 _ hj1 hj]
      have e3 : (1 : Int) + (j : Int) - 1 = j := by omega
      have e4 : (1 : Int) + (j : Int) = j + 1 := by omega
      rw [e3, e4]
      simp only [Option.bind_assoc, afterCell32, Option.bind_eq_bind]
      rfl

/-- The 32-bit call on two non-empty strings whose matrix has at most
`2 ^ 31` cells, with a workspace that holds the matrix: the loops end in a state
`v` whose `k` is the index of the cell `(n, m)`, the call returns the content
`D(n, m)` of that cell, and the workspace left behind holds the whole table. -/
theorem dameraulevenshtein32_run {α : Type} [DecidableEq α] (s t : List α) (d : List Int)
    (hs : s ≠ []) (ht : t ≠ []) (hL : (s.length + 1) * (t.length + 1) ≤ d.length)
    (hB : (s.length + 1) * (t.length + 1) ≤ 2147483648) :
    ∃ v, fillMatrix32 s t ((s.length : Int) + 1) ((t.length : Int) + 1) d = some v ∧
      OuterInv s t d.length s.length v ∧
      v.k = ((t.length * (s.length + 1) + s.length : Nat) : Int) ∧
      readCell v.d v.k = some ((D s t s.length t.length : Nat) : Int) ∧
      dameraulevenshtein32 d (UDF_ARGS.ofStrings s t)
        = some (((D s t s.length t.length : Nat) : Int), v.d) := by
  obtain ⟨v, hv, hinv, hk, hr, hres⟩ := dameraulevenshtein_run s t d hs ht hL
  have h32 := fillMatrix32_eq s t d hL hB
  have hN : ((s.length + 1 : Nat) : Int) = (s.length : Int) + 1 := by omega
  have hM : ((t.length + 1 : Nat) : Int) = (t.length : Int) + 1 := by omega
  rw [hN, hM] at h32
  exact ⟨v, by rw [h32]; exact hv, hinv, hk, hr,
    by rw [dameraulevenshtein32_eq s t d hL hB]; exact hres⟩

/-! ## Single edits in the table -/

theorem D_single_substitution {α : Type} [DecidableEq α] (s t : List α) (p : Nat)
    (hlen : s.length = t.length) (hp : p < s.length)
    (hdiff : s[p]? ≠ t[p]?) (hsame : ∀ q, q ≠ p → s[q]? = t[q]?) :
    D s t s.length t.length = 1 := by
  have hs := split_at s p hp
  have ht := split_at t p (by omega)
  have htake : s.take p = t.take p := take_eq_of_agree s t p (fun q hq => hsame q (by omega))
  have hdrop : s.drop (p + 1) = t.drop (p + 1) :=
    drop_eq_of_agree s t (p + 1) (fun q hq => hsame q (by omega))
  have hab : s[p] ≠ t[p] := by
    intro h
    apply hdiff
    rw [List.getElem?_eq_getElem hp, List.getElem?_eq_getElem (by omega), h]
  have hne : s ≠ t := by
    intro h
    apply hdiff
    rw [h]
  have ht' : t = s.take p ++ t[p] :: s.drop (p + 1) := by
    rw [htake, hdrop]
    exact ht
  have key : ∀ x y : List α, x = s.take p ++ s[p] :: s.drop (p + 1) →
      y = s.take p ++ t[p] :: s.drop (p + 1) → Script 1 x y := by
    intro x y hx hy
    rw [hx, hy]
    exact Script.one_substitute _ _ _ _ hab
  exact D_eq_one s t (key s t hs ht') hne

theorem D_adjacent_transposition {α : Type} [DecidableEq α] (s t : List α) (p : Nat)
    (hlen : s.length = t.length) (hp : p + 1 < s.length)
    (hdiff : s[p]? ≠ s[p + 1]?) (h1 : t[p]? = s[p + 1]?) (h2 : t[p + 1]? = s[p]?)
    (hsame : ∀ q, q ≠ p → q ≠ p + 1 → s[q]? = t[q]?) :
    D s t s.length t.length = 1 := by
  have hsp : s[p]? = some (s[p]) := List.getElem?_eq_getElem (by omega)
  have hsp1 : s[p + 1]? = some (s[p + 1]) := List.getElem?_eq_getElem hp
  have htp : t[p]? = some (t[p]) := List.getElem?_eq_getElem (by omega)
  have htp1 : t[p + 1]? = some (t[p + 1]) := List.getElem?_eq_getElem (by omega)
  have e1 : t[p] = s[p + 1] := by
    rw [htp, hsp1] at h1
    exact Option.some.inj h1
  have e2 : t[p + 1] = s[p] := by
    rw [htp1, hsp] at h2
    exact Option.some.inj h2
  have hs : s = s.take p ++ s[p] :: s[p + 1] :: s.drop (p + 2) := by
    rw [← List.drop_eq_getElem_cons hp, ← List.drop_eq_getElem_cons (by omega),
      List.take_append_drop]
  have ht : t = t.take p ++ t[p] :: t[p + 1] :: t.drop (p + 2) := by
    rw [← List.drop_eq_getElem_cons (by omega), ← List.drop_eq_getElem_cons (by omega),
      List.take_append_drop]
  have htake : s.take p = t.take p := take_eq_of_agree s t p
    (fun q hq => hsame q (by omega) (by omega))
  have hdrop : s.drop (p + 2) = t.drop (p + 2) :=
    drop_eq_of_agree s t (p + 2) (fun q hq => hsame q (by omega) (by omega))
  have hne : s ≠ t := by
    intro h
    apply hdiff
    rw [← h1, h]
  have ht' : t = s.take p ++ s[p + 1] :: s[p] :: s.drop (p + 2) := by
    rw [htake, hdrop, ← e1, ← e2]
    exact ht
  have key : ∀ x y : List α, x = s.take p ++ s[p] :: s[p + 1] :: s.drop (p + 2) →
      y = s.take p ++ s[p + 1] :: s[p] :: s.drop (p + 2) → Script 1 x y := by
    intro x y hx hy
    rw [hx, hy]
    exact Script.one_swap _ _ _ _
  exact D_eq_one s t (key s t hs ht') hne

theorem D_single_insert {α : Type} [DecidableEq α] (u v : List α) (a : α) :
    D (u ++ v) (u ++ a :: v) (u ++ v).length (u ++ a :: v).length = 1 := by
  apply D_eq_one _ _ (Script.one_insert u v a)
  intro h
  have := congrArg List.length h
  simp at this

theorem D_single_delete {α : Type} [DecidableEq α] (u v : List α) (a : α) :
    D (u ++ a :: v) (u ++ v) (u ++ a :: v).length (u ++ v).length = 1 := by
  apply D_eq_one _ _ (Script.one_delete u v a)
  intro h
  have := congrArg List.length h
  simp at this

theorem D_single_substitute {α : Type} [DecidableEq α] (u v : List α) (a b : α)
    (hab : a ≠ b) :
    D (u ++ a :: v) (u ++ b :: v) (u ++ a :: v).length (u ++ b :: v).length = 1 := by
  apply D_eq_one _ _ (Script.one_substitute u v a b hab)
  intro h
  have h' := List.append_cancel_left h
  exact hab (List.cons.inj h').1

theorem replicate_ne_nil {α : Type} (n : Nat) (a : α) (h : 0 < n) : List.replicate n a ≠ [] := by
  intro hnil
  have := congrArg List.length hnil
  rw [List.length_replicate, List.length_nil] at this
  omega

theorem cons_agree {α : Type} (a b : α) (l : List α) (q : Nat) (hq : q ≠ 0) :
    (a :: l)[q]? = (b :: l)[q]? := by
  cases q with
  | zero => exact absurd rfl hq
  | succ q => rfl

theorem cons_head_ne {α : Type} (a b : α) (l : List α) (h : a ≠ b) :
    (a :: l)[0]? ≠ (b :: l)[0]? := by
  simpa using h

theorem cons_cons_agree {α : Type} (a b : α) (l : List α) (q : Nat) (h0 : q ≠ 0)
    (h1 : q ≠ 0 + 1) : (a :: b :: l)[q]? = (b :: a :: l)[q]? := by
  match q, h0, h1 with
  | 0, h, _ => exact absurd rfl h
  | 1, _, h => exact absurd rfl h
  | _ + 2, _, _ => rfl

theorem cons_cons_ne {α : Type} (a b : α) (l : List α) (h : a ≠ b) :
    (a :: b :: l)[0]? ≠ (a :: b :: l)[0 + 1]? := by
  simpa using h

theorem cons_cons_fst {α : Type} (a b : α) (l : List α) :
    (b :: a :: l)[0]? = (a :: b :: l)[0 + 1]? := by
  simp

theorem cons_cons_snd {α : Type} (a b : α) (l : List α) :
    (b :: a :: l)[0 + 1]? = (a :: b :: l)[0]? := by
  simp

/-- The 32-bit call on two non-empty strings whose matrix has at most `2 ^ 31`
cells returns `D(n, m)` and leaves a workspace of the same length that holds
`D(i, j)` at the index `j * (n + 1) + i`. -/
theorem dameraulevenshtein32_ofStrings {α : Type} [DecidableEq α] (s t : List α) (d : List Int)
    (hs : s ≠ []) (ht : t ≠ []) (hL : (s.length + 1) * (t.length + 1) ≤ d.length)
    (hB : (s.length + 1) * (t.length + 1) ≤ 2147483648) :
    ∃ d', dameraulevenshtein32 d (UDF_ARGS.ofStrings s t)
        = some (((D s t s.length t.length : Nat) : Int), d') ∧
      d'.length = d.length ∧
      ∀ i j, i ≤ s.length → j ≤ t.length →
        d'[j * (s.length + 1) + i]? = some ((D s t i j : Nat) : Int) := by
  rw [dameraulevenshtein32_eq s t d hL hB]
  exact dameraulevenshtein_ofStrings s t d hs ht hL

/-- The workspace that `dameraulevenshtein_init` leaves in `initid->ptr` has
`(lengths[0] + 1) * (lengths[1] + 1)` cells, when that product fits an
`unsigned long` of 64 bits and the allocator returns buffers of the size asked
for. -/
theorem dameraulevenshtein_init_workspace (alloc : Nat → Option (List Int)) (arg_count : Nat)
    (arg_type : List Item_result) (l0 l1 : Nat) (initid : UDF_INIT)
    (hfit : (l0 + 1) * (l1 + 1) < 18446744073709551616)
    (halloc : ∀ size buf, alloc size = some buf → buf.length = size)
    (hinit : dameraulevenshtein_init alloc arg_count arg_type l0 l1 = Except.ok initid) :
    initid.ptr.length = (l0 + 1) * (l1 + 1) := by
  have h0 : l0 + 1 < 18446744073709551616 :=
    Nat.lt_of_le_of_lt (Nat.le_mul_of_pos_right _ (Nat.succ_pos _)) hfit
  have h1 : l1 + 1 < 18446744073709551616 :=
    Nat.lt_of_le_of_lt (Nat.le_mul_of_pos_left _ (Nat.succ_pos _)) hfit
  have hw : wrap64 (wrap64 (l0 + 1) * wrap64 (l1 + 1)) = (l0 + 1) * (l1 + 1) := by
    unfold wrap64
    rw [Nat.mod_eq_of_lt h0, Nat.mod_eq_of_lt h1, Nat.mod_eq_of_lt hfit]
  unfold dameraulevenshtein_init at hinit
  rw [hw] at hinit
  split_ifs at hinit
  cases ha : alloc ((l0 + 1) * (l1 + 1)) with
  | none => rw [ha] at hinit; simp at hinit
  | some buf =>
    rw [ha] at hinit
    simp only [Except.ok.injEq] at hinit
    rw [← hinit]
    exact halloc _ _ ha

/-! ## The claims on the 32-bit run -/

/-- C1: on two non-empty sequences `s` (length `n`) and `t` (length `m`), the
call with `int` variables of 32 bits behaves as follows. When the matrix has at
most `2 ^ 31` cells and the workspace holds it, the loops end with
`k = m * (n + 1) + n` and the call returns `d[k]`, which is `D(n, m)`; and for
every cell `(i, j)` with `1 ≤ i ≤ n`, `1 ≤ j ≤ m` the run passes through the
body of the loop over `j` for that cell, which is entered with `g = i - 1` and
`f = j - 1`, and leaves `k = j * (n + 1) + i`, `h = k - (n + 1)` and
`d[k] = D(i, j)`. When the matrix has more than `2 ^ 31` cells (with `n + 1` and
`m + 1` below `2 ^ 31`) the call produces no result, on any workspace. -/
theorem dameraulevenshtein32_returns_table {α : Type} [DecidableEq α] (s t : List α)
    (d : List Int) (hs : s ≠ []) (ht : t ≠ []) :
    ((s.length + 1) * (t.length + 1) ≤ d.length →
      (s.length + 1) * (t.length + 1) ≤ 2147483648 →
      (∃ v, fillMatrix32 s t ((s.length : Int) + 1) ((t.length : Int) + 1) d = some v ∧
        v.k = (t.length : Int) * ((s.length : Int) + 1) + (s.length : Int) ∧
        readCell v.d v.k = some ((D s t s.length t.length : Nat) : Int) ∧
        dameraulevenshtein32 d (UDF_ARGS.ofStrings s t)
          = some (((D s t s.length t.length : Nat) : Int), v.d)) ∧
      ∀ i j : Nat, 1 ≤ i → i ≤ s.length → 1 ≤ j → j ≤ t.length →
        fillMatrix32 s t ((s.length : Int) + 1) ((t.length : Int) + 1) d =
          (cellEntry32 s t ((s.length : Int) + 1) ((t.length : Int) + 1) d i j).bind
            (fun v => (innerBody32 s t ((s.length : Int) + 1) (i : Int) (j : Int) v).bind
              (afterCell32 s t ((s.length : Int) + 1) ((t.length : Int) + 1) i j)) ∧
        ∃ v v', cellEntry32 s t ((s.length : Int) + 1) ((t.length : Int) + 1) d i j = some v ∧
          v.g = (i : Int) - 1 ∧ v.f = (j : Int) - 1 ∧
          innerBody32 s t ((s.length : Int) + 1) (i : Int) (j : Int) v = some v' ∧
          v'.k = (j : Int) * ((s.length : Int) + 1) + (i : Int) ∧
          v'.h = v'.k - ((s.length : Int) + 1) ∧
          readCell v'.d v'.k = some ((D s t i j : Nat) : Int)) ∧
    (s.length + 1 < 2147483648 → t.length + 1 < 2147483648 →
      2147483648 < (s.length + 1) * (t.length + 1) →
      dameraulevenshtein32 d (UDF_ARGS.ofStrings s t) = none) := by
  refine ⟨?_, fun hn _ hover => dameraulevenshtein32_beyond s t d hs ht hn hover⟩
  intro hL hB
  constructor
  · obtain ⟨v, hv, _, hk, hr, hres⟩ := dameraulevenshtein32_run s t d hs ht hL hB
    refine ⟨v, hv, ?_, hr, hres⟩
    rw [hk]
    push_cast
    rfl
  · intro i j hi1 hi hj1 hj
    refine ⟨fillMatrix32_through_cell s t _ _ d i j hi1 (by omega) hj1 (by omega), ?_⟩
    obtain ⟨i0, rfl⟩ : ∃ i0, i = i0 + 1 := ⟨i - 1, by omega⟩
    obtain ⟨q, rfl⟩ : ∃ q, j = q + 1 := ⟨j - 1, by omega⟩
    obtain ⟨v, v', hv, hv', hinv, ⟨_, hk', _, _, hknown'⟩, hh⟩ :=
      cellEntry_spec s t d i0 q (by omega) (by omega) hL
    have hk := hinv.2.1
    have hg := hinv.2.2.1
    have hf := hinv.2.2.2.1
    have hN : (s.length : Int) + 1 = ((s.length + 1 : Nat) : Int) := by omega
    have hj' : ((q + 1 : Nat) : Int) = 1 + (q : Int) := by omega
    have h32 := innerBody32_eq s t d.length i0 q (by omega) (by omega) hL hB v hinv
    rw [← hN, ← hj'] at h32
    refine ⟨v, v', ?_, by omega, by omega, by rw [h32]; exact hv', ?_, ?_, ?_⟩
    · rw [cellEntry32_eq s t d i0 q (by omega) (by omega) hL hB]
      exact hv
    · rw [hk']
      push_cast
      rfl
    · rw [hh, hk, hk']
      push_cast
      ring
    · rw [readCell_of_eq v'.d _ _ hk']
      exact hknown' (i0 + 1) (q + 1) (by omega) (by omega)
        (Or.inr (Or.inr (Or.inr ⟨rfl, Nat.le_refl _⟩)))

theorem dameraulevenshtein32_returns_table_witness :
    (∃ v, fillMatrix32 ['a', 'b'] ['b', 'a'] 3 3 (List.replicate 9 0) = some v ∧
      v.k = 8 ∧ readCell v.d v.k = some 1 ∧ v.d = [0, 1, 2, 1, 1, 1, 2, 1, 1]) ∧
    dameraulevenshtein32 (List.replicate 2147534622 0)
      (UDF_ARGS.ofStrings (List.replicate 46340 'a') (List.replicate 46341 'b')) = none := by
  constructor
  · obtain ⟨⟨v, hv, hk, hr, hres⟩, _⟩ := (dameraulevenshtein32_returns_table ['a', 'b']
      ['b', 'a'] (List.replicate 9 0) (by decide) (by decide)).1 (by decide) (by decide)
    have h0 : dameraulevenshtein32 (List.replicate 9 0)
        (UDF_ARGS.ofStrings ['a', 'b'] ['b', 'a'])
        = some (1, [0, 1, 2, 1, 1, 1, 2, 1, 1]) := by decide
    rw [h0] at hres
    have h1 := Prod.mk.inj (Option.some.inj hres)
    rw [← h1.1] at hr
    exact ⟨v, hv, hk, hr, h1.2.symm⟩
  · exact (dameraulevenshtein32_returns_table (List.replicate 46340 'a')
      (List.replicate 46341 'b') (List.replicate 2147534622 0)
      (replicate_ne_nil 46340 'a' (by decide)) (replicate_ne_nil 46341 'b' (by decide))).2
      (by rw [List.length_replicate]; decide) (by rw [List.length_replicate]; decide)
      (by rw [List.length_replicate, List.length_replicate]; decide)

/-- C2, amended: when the matrix has at most `2 ^ 31` cells and the workspace
holds it, the call with `int` variables of 32 bits on `s` and `t` returns the
length of a shortest restricted edit script from `s` to `t`, a script of
insertions, deletions, substitutions and swaps of two adjacent elements in
which no element is edited twice. -/
theorem dameraulevenshtein32_shortest_script {α : Type} [DecidableEq α] (s t : List α)
    (d : List Int) (hL : (s.length + 1) * (t.length + 1) ≤ d.length)
    (hB : (s.length + 1) * (t.length + 1) ≤ 2147483648) :
    ∃ k : Nat, distance32 d s t = some (k : Int) ∧ Script k s t ∧
      ∀ k', Script k' s t → k ≤ k' :=
  ⟨D s t s.length t.length, distance32_eq s t d hL hB, (D_isLeast s t).1, (D_isLeast s t).2⟩

theorem dameraulevenshtein32_shortest_script_witness :
    ∃ k : Nat, distance32 (List.replicate 12 0) ['c', 'a'] ['a', 'b', 'c'] = some (k : Int) ∧
      Script k ['c', 'a'] ['a', 'b', 'c'] ∧
      ∀ k', Script k' ['c', 'a'] ['a', 'b', 'c'] → k ≤ k' :=
  dameraulevenshtein32_shortest_script ['c', 'a'] ['a', 'b', 'c'] (List.replicate 12 0)
    (by decide) (by decide)

/-- C4: for the call with `int` variables of 32 bits, when the matrix has at
most `2 ^ 31` cells and the workspace holds it, the call on `s` and `t` returns
`0` if and only if `s` and `t` are equal; on a non-empty `s` whose matrix with
itself has more than `2 ^ 31` cells (with `n + 1` below `2 ^ 31`) the call on
`s` and `s` produces no result. -/
theorem dameraulevenshtein32_zero_iff_eq {α : Type} [DecidableEq α] (s t : List α)
    (d : List Int) :
    ((s.length + 1) * (t.length + 1) ≤ d.length →
      (s.length + 1) * (t.length + 1) ≤ 2147483648 →
      (distance32 d s t = some 0 ↔ s = t)) ∧
    (s ≠ [] → s.length + 1 < 2147483648 → 2147483648 < (s.length + 1) * (s.length + 1) →
      distance32 d s s = none) := by
  refine ⟨?_, fun hs hn hover => distance32_beyond s s d hs hs hn hover⟩
  intro hL hB
  rw [distance32_eq s t d hL hB, ← D_eq_zero_iff s t]
  constructor
  · intro h
    have h' := Option.some.inj h
    omega
  · intro h
    rw [h]
    rfl

theorem dameraulevenshtein32_zero_iff_eq_witness :
    distance32 (List.replicate 9 0) ['a', 'b'] ['a', 'b'] = some 0 ∧
    distance32 (List.replicate 2147488281 0) (List.replicate 46340 'a')
      (List.replicate 46340 'a') = none :=
  ⟨((dameraulevenshtein32_zero_iff_eq ['a', 'b'] ['a', 'b'] (List.replicate 9 0)).1
      (by decide) (by decide)).mpr rfl,
    (dameraulevenshtein32_zero_iff_eq (List.replicate 46340 'a') (List.replicate 46340 'a')
      (List.replicate 2147488281 0)).2 (replicate_ne_nil 46340 'a' (by decide))
      (by rw [List.length_replicate]; decide) (by rw [List.length_replicate]; decide)⟩

/-- C5: for the call with `int` variables of 32 bits, when the matrix has at
most `2 ^ 31` cells and the workspace holds it, the returned value lies between
`0` and `max(n, m)`, and on non-empty sequences every cell `(i, j)` of the
matrix the call leaves behind lies between `0` and `max(i, j)`; when the matrix
has more than `2 ^ 31` cells (with `n + 1` and `m + 1` below `2 ^ 31`) the call
on two non-empty sequences produces no result. -/
theorem dameraulevenshtein32_range {α : Type} [DecidableEq α] (s t : List α)
    (d : List Int) :
    ((s.length + 1) * (t.length + 1) ≤ d.length →
      (s.length + 1) * (t.length + 1) ≤ 2147483648 →
      (∃ r, distance32 d s t = some r ∧ 0 ≤ r ∧ r ≤ max (s.length : Int) (t.length : Int)) ∧
      (s ≠ [] → t ≠ [] →
        ∃ r d', dameraulevenshtein32 d (UDF_ARGS.ofStrings s t) = some (r, d') ∧
          ∀ i j : Nat, i ≤ s.length → j ≤ t.length →
            ∃ c, d'[j * (s.length + 1) + i]? = some c ∧ 0 ≤ c ∧
              c ≤ max (i : Int) (j : Int))) ∧
    (s ≠ [] → t ≠ [] → s.length + 1 < 2147483648 → t.length + 1 < 2147483648 →
      2147483648 < (s.length + 1) * (t.length + 1) → distance32 d s t = none) := by
  refine ⟨?_, fun hs ht hn _ hover => distance32_beyond s t d hs ht hn hover⟩
  intro hL hB
  constructor
  · refine ⟨_, distance32_eq s t d hL hB, by omega, ?_⟩
    have h := D_le_max s t s.length t.length
    omega
  · intro hs ht
    obtain ⟨d', hres, _, hcells⟩ := dameraulevenshtein32_ofStrings s t d hs ht hL hB
    refine ⟨_, d', hres, ?_⟩
    intro i j hi hj
    refine ⟨_, hcells i j hi hj, by omega, ?_⟩
    have h := D_le_max s t i j
    omega

theorem dameraulevenshtein32_range_witness :
    (∃ r, distance32 (List.replicate 12 0) ['c', 'a'] ['a', 'b', 'c'] = some r ∧ 0 ≤ r ∧
      r ≤ max (2 : Int) 3) ∧
    distance32 (List.replicate 2147534622 0) (List.replicate 46340 'a')
      (List.replicate 46341 'b') = none :=
  ⟨((dameraulevenshtein32_range ['c', 'a'] ['a', 'b', 'c'] (List.replicate 12 0)).1
      (by decide) (by decide)).1,
    (dameraulevenshtein32_range (List.replicate 46340 'a') (List.replicate 46341 'b')
      (List.replicate 2147534622 0)).2 (replicate_ne_nil 46340 'a' (by decide))
      (replicate_ne_nil 46341 'b' (by decide)) (by rw [List.length_replicate]; decide)
      (by rw [List.length_replicate]; decide)
      (by rw [List.length_replicate, List.length_replicate]; decide)⟩

/-- C7: for two sequences `s` and `t` of the same length that differ at the
position `p` and nowhere else, the call with `int` variables of 32 bits returns
`1` when the matrix has at most `2 ^ 31` cells and the workspace holds it, and
produces no result when the matrix has more than `2 ^ 31` cells (and `n + 1` is
below `2 ^ 31`). -/
theorem dameraulevenshtein32_single_substitution {α : Type} [DecidableEq α] (s t : List α)
    (p : Nat) (d : List Int) (hlen : s.length = t.length) (hp : p < s.length)
    (hdiff : s[p]? ≠ t[p]?) (hsame : ∀ q, q ≠ p → s[q]? = t[q]?) :
    ((s.length + 1) * (t.length + 1) ≤ d.length →
      (s.length + 1) * (t.length + 1) ≤ 2147483648 → distance32 d s t = some 1) ∧
    (s.length + 1 < 2147483648 → 2147483648 < (s.length + 1) * (t.length + 1) →
      distance32 d s t = none) := by
  constructor
  · intro hL hB
    rw [distance32_eq s t d hL hB, D_single_substitution s t p hlen hp hdiff hsame]
    rfl
  · intro hn hover
    have hs : s ≠ [] := List.length_pos.mp (by omega)
    have ht : t ≠ [] := List.length_pos.mp (by omega)
    exact distance32_beyond s t d hs ht hn hover

theorem dameraulevenshtein32_single_substitution_witness :
    distance32 (List.replicate 16 0) ['c', 'a', 't'] ['c', 'u', 't'] = some 1 ∧
    distance32 (List.replicate 2147488281 0) ('a' :: List.replicate 46339 'c')
      ('b' :: List.replicate 46339 'c') = none :=
  ⟨(dameraulevenshtein32_single_substitution ['c', 'a', 't'] ['c', 'u', 't'] 1
      (List.replicate 16 0) rfl (by decide) (by decide)
      (fun q hq => match q, hq with
        | 0, _ => rfl
        | 1, h => absurd rfl h
        | 2, _ => rfl
        | _ + 3, _ => rfl)).1 (by decide) (by decide),
    (dameraulevenshtein32_single_substitution ('a' :: List.replicate 46339 'c')
      ('b' :: List.replicate 46339 'c') 0 (List.replicate 2147488281 0)
      (by rw [List.length_cons, List.length_cons])
      (by rw [List.length_cons, List.length_replicate]; decide)
      (cons_head_ne _ _ _ (by decide)) (cons_agree _ _ _)).2
      (by rw [List.length_cons, List.length_replicate]; decide)
      (by rw [List.length_cons, List.length_cons, List.length_replicate]; decide)⟩

/-- C8: for a sequence `s` and a position `p` with `s[p] ≠ s[p + 1]`, and the
sequence `t` that is `s` with the elements at `p` and `p + 1` swapped, the call
with `int` variables of 32 bits returns `1` when the matrix has at most
`2 ^ 31` cells and the workspace holds it, and produces no result when the
matrix has more than `2 ^ 31` cells (and `n + 1` is below `2 ^ 31`). -/
theorem dameraulevenshtein32_adjacent_transposition {α : Type} [DecidableEq α]
    (s t : List α) (p : Nat) (d : List Int) (hlen : s.length = t.length)
    (hp : p + 1 < s.length) (hdiff : s[p]? ≠ s[p + 1]?) (h1 : t[p]? = s[p + 1]?)
    (h2 : t[p + 1]? = s[p]?) (hsame : ∀ q, q ≠ p → q ≠ p + 1 → s[q]? = t[q]?) :
    ((s.length + 1) * (t.length + 1) ≤ d.length →
      (s.length + 1) * (t.length + 1) ≤ 2147483648 → distance32 d s t = some 1) ∧
    (s.length + 1 < 2147483648 → 2147483648 < (s.length + 1) * (t.length + 1) →
      distance32 d s t = none) := by
  constructor
  · intro hL hB
    rw [distance32_eq s t d hL hB,
      D_adjacent_transposition s t p hlen hp hdiff h1 h2 hsame]
    rfl
  · intro hn hover
    have hs : s ≠ [] := List.length_pos.mp (by omega)
    have ht : t ≠ [] := List.length_pos.mp (by omega)
    exact distance32_beyond s t d hs ht hn hover

theorem dameraulevenshtein32_adjacent_transposition_witness :
    distance32 (List.replicate 9 0) ['a', 'b'] ['b', 'a'] = some 1 ∧
    distance32 (List.replicate 2147488281 0) ('a' :: 'b' :: List.replicate 46338 'c')
      ('b' :: 'a' :: List.replicate 46338 'c') = none :=
  ⟨(dameraulevenshtein32_adjacent_transposition ['a', 'b'] ['b', 'a'] 0
      (List.replicate 9 0) rfl (by decide) (by decide) rfl rfl
      (fun q hq0 hq1 => match q, hq0, hq1 with
        | 0, h, _ => absurd rfl h
        | 1, _, h => absurd rfl h
        | _ + 2, _, _ => rfl)).1 (by decide) (by decide),
    (dameraulevenshtein32_adjacent_transposition ('a' :: 'b' :: List.replicate 46338 'c')
      ('b' :: 'a' :: List.replicate 46338 'c') 0 (List.replicate 2147488281 0)
      (by rw [List.length_cons, List.length_cons, List.length_cons, List.length_cons])
      (by rw [List.length_cons, List.length_cons, List.length_replicate]; decide)
      (cons_cons_ne _ _ _ (by decide)) (cons_cons_fst _ _ _) (cons_cons_snd _ _ _)
      (cons_cons_agree _ _ _)).2
      (by rw [List.length_cons, List.length_cons, List.length_replicate]; decide)
      (by
        rw [List.length_cons, List.length_cons, List.length_cons, List.length_cons,
          List.length_replicate]
        decide)⟩

/-- C9: for the call with `int` variables of 32 bits, each with a workspace
that holds the matrix of the two sequences of the call and a matrix of at most
`2 ^ 31` cells: from a sequence to the sequence with one element inserted the
call returns `1`, from a sequence to the sequence with one element deleted it
returns `1`, and from a sequence to the sequence with one element replaced by a
different one it returns `1`. When the matrix of a non-empty sequence and the
sequence with one element inserted has more than `2 ^ 31` cells (with the two
lengths plus one below `2 ^ 31`) the call produces no result. -/
theorem dameraulevenshtein32_single_edit {α : Type} [DecidableEq α] (u v : List α) (a b : α)
    (d : List Int) :
    (((u ++ v).length + 1) * ((u ++ a :: v).length + 1) ≤ d.length →
      ((u ++ v).length + 1) * ((u ++ a :: v).length + 1) ≤ 2147483648 →
      distance32 d (u ++ v) (u ++ a :: v) = some 1) ∧
    (((u ++ a :: v).length + 1) * ((u ++ v).length + 1) ≤ d.length →
      ((u ++ a :: v).length + 1) * ((u ++ v).length + 1) ≤ 2147483648 →
      distance32 d (u ++ a :: v) (u ++ v) = some 1) ∧
    (a ≠ b → ((u ++ a :: v).length + 1) * ((u ++ b :: v).length + 1) ≤ d.length →
      ((u ++ a :: v).length + 1) * ((u ++ b :: v).length + 1) ≤ 2147483648 →
      distance32 d (u ++ a :: v) (u ++ b :: v) = some 1) ∧
    (u ++ v ≠ [] → (u ++ a :: v).length + 1 < 2147483648 →
      2147483648 < ((u ++ v).length + 1) * ((u ++ a :: v).length + 1) →
      distance32 d (u ++ v) (u ++ a :: v) = none) := by
  refine ⟨?_, ?_, ?_, ?_⟩
  · intro hL hB
    rw [distance32_eq _ _ d hL hB, D_single_insert u v a]
    rfl
  · intro hL hB
    rw [distance32_eq _ _ d hL hB, D_single_delete u v a]
    rfl
  · intro hab hL hB
    rw [distance32_eq _ _ d hL hB, D_single_substitute u v a b hab]
    rfl
  · intro hs hm hover
    have hn : (u ++ v).length + 1 < 2147483648 := by
      rw [List.length_append, List.length_cons] at hm
      rw [List.length_append]
      omega
    exact distance32_beyond _ _ d hs (by simp) hn hover

theorem dameraulevenshtein32_single_edit_witness :
    (distance32 (List.replicate 12 0) ['a', 'c'] ['a', 'b', 'c'] = some 1 ∧
      distance32 (List.replicate 12 0) ['a', 'b', 'c'] ['a', 'c'] = some 1 ∧
      distance32 (List.replicate 16 0) ['a', 'b', 'c'] ['a', 'x', 'c'] = some 1) ∧
    distance32 (List.replicate 2147534622 0) ([] ++ List.replicate 46340 'a')
      ([] ++ 'b' :: List.replicate 46340 'a') = none :=
  ⟨⟨(dameraulevenshtein32_single_edit ['a'] ['c'] 'b' 'x' (List.replicate 12 0)).1
      (by decide) (by decide),
    (dameraulevenshtein32_single_edit ['a'] ['c'] 'b' 'x' (List.replicate 12 0)).2.1
      (by decide) (by decide),
    (dameraulevenshtein32_single_edit ['a'] ['c'] 'b' 'x' (List.replicate 16 0)).2.2.1
      (by decide) (by decide) (by decide)⟩,
    (dameraulevenshtein32_single_edit [] (List.replicate 46340 'a') 'b' 'x'
      (List.replicate 2147534622 0)).2.2.2
      (by rw [List.nil_append]; exact replicate_ne_nil 46340 'a' (by decide))
      (by rw [List.nil_append, List.length_cons, List.length_replicate]; decide)
      (by
        rw [List.nil_append, List.nil_append, List.length_cons, List.length_replicate]
        decide)⟩

/-- C14: after the call with `int` variables of 32 bits on non-empty `s` and
`t`, when the matrix has at most `2 ^ 31` cells and the workspace holds it, the
cell at the index `j * (n + 1) + i` holds what the call returns on the prefix of
length `i` of `s` and the prefix of length `j` of `t` (on any workspace that is
large enough for them), for all `i ≤ n`, `j ≤ m`, and the cells of row 0 and
column 0 hold `i` and `j`; when the matrix has more than `2 ^ 31` cells (with
`n + 1` and `m + 1` below `2 ^ 31`) the call produces no result and leaves no
matrix. -/
theorem dameraulevenshtein32_prefix_cells {α : Type} [DecidableEq α] (s t : List α)
    (d : List Int) (hs : s ≠ []) (ht : t ≠ []) :
    ((s.length + 1) * (t.length + 1) ≤ d.length →
      (s.length + 1) * (t.length + 1) ≤ 2147483648 →
      ∃ r d', dameraulevenshtein32 d (UDF_ARGS.ofStrings s t) = some (r, d') ∧
        (∀ i j : Nat, i ≤ s.length → j ≤ t.length → ∀ w : List Int,
          (i + 1) * (j + 1) ≤ w.length →
          d'[j * (s.length + 1) + i]? = distance32 w (s.take i) (t.take j)) ∧
        (∀ i : Nat, i ≤ s.length → d'[i]? = some (i : Int)) ∧
        (∀ j : Nat, j ≤ t.length → d'[j * (s.length + 1)]? = some (j : Int))) ∧
    (s.length + 1 < 2147483648 → t.length + 1 < 2147483648 →
      2147483648 < (s.length + 1) * (t.length + 1) →
      dameraulevenshtein32 d (UDF_ARGS.ofStrings s t) = none) := by
  refine ⟨?_, fun hn _ hover => dameraulevenshtein32_beyond s t d hs ht hn hover⟩
  intro hL hB
  obtain ⟨d', hres, _, hcells⟩ := dameraulevenshtein32_ofStrings s t d hs ht hL hB
  refine ⟨_, d', hres, ?_, ?_, ?_⟩
  · intro i j hi hj w hw
    have hli : (s.take i).length = i := by rw [List.length_take]; omega
    have hlj : (t.take j).length = j := by rw [List.length_take]; omega
    have hmono : (i + 1) * (j + 1) ≤ (s.length + 1) * (t.length + 1) :=
      Nat.mul_le_mul (by omega) (by omega)
    rw [hcells i j hi hj, distance32_eq (s.take i) (t.take j) w (by rw [hli, hlj]; exact hw)
      (by rw [hli, hlj]; exact Nat.le_trans hmono hB), hli, hlj, D_take]
  · intro i hi
    have h := hcells i 0 hi (Nat.zero_le _)
    rw [D_zero_right, Nat.zero_mul, Nat.zero_add] at h
    exact h
  · intro j hj
    have h := hcells 0 j (Nat.zero_le _) hj
    rw [D_zero_left, Nat.add_zero] at h
    exact h

theorem dameraulevenshtein32_prefix_cells_witness :
    (∃ r d', dameraulevenshtein32 (List.replicate 9 7)
        (UDF_ARGS.ofStrings ['a', 'b'] ['b', 'a']) = some (r, d') ∧
      d'[1 * (2 + 1) + 2]? = distance32 (List.replicate 6 0) ['a', 'b'] ['b']) ∧
    dameraulevenshtein32 (List.replicate 2147534622 0)
      (UDF_ARGS.ofStrings (List.replicate 46340 'a') (List.replicate 46341 'b')) = none := by
  constructor
  · obtain ⟨r, d', h, hcells, _, _⟩ := (dameraulevenshtein32_prefix_cells ['a', 'b']
      ['b', 'a'] (List.replicate 9 7) (by decide) (by decide)).1 (by decide) (by decide)
    exact ⟨r, d', h, hcells 2 1 (by decide) (by decide) (List.replicate 6 0) (by decide)⟩
  · exact (dameraulevenshtein32_prefix_cells (List.replicate 46340 'a')
      (List.replicate 46341 'b') (List.replicate 2147534622 0)
      (replicate_ne_nil 46340 'a' (by decide)) (replicate_ne_nil 46341 'b' (by decide))).2
      (by rw [List.length_replicate]; decide) (by rw [List.length_replicate]; decide)
      (by rw [List.length_replicate, List.length_replicate]; decide)

/-- C17: on non-empty `s` and `t` whose matrix has less than `2 ^ 31` cells, the
call with `int` variables of 32 bits does not fault, that is every read and
write of the workspace and every read of `s` and `t` is in bounds: on any
workspace that holds the matrix, whose length the call keeps, and on a
workspace of exactly `(n + 1) * (m + 1)` cells; and the "damerau inclusion"
reads nothing unless `i > 1` and `j > 1`. -/
theorem dameraulevenshtein32_index_safe {α : Type} [DecidableEq α] (s t : List α)
    (d : List Int) (hs : s ≠ []) (ht : t ≠ [])
    (hB : (s.length + 1) * (t.length + 1) < 2147483648)
    (hL : (s.length + 1) * (t.length + 1) ≤ d.length) :
    (∃ r d', dameraulevenshtein32 d (UDF_ARGS.ofStrings s t) = some (r, d') ∧
      d'.length = d.length) ∧
    (∃ r d', dameraulevenshtein32 (d.take ((s.length + 1) * (t.length + 1)))
      (UDF_ARGS.ofStrings s t) = some (r, d')) ∧
    (∀ (s' t' : List α) (n i j k f g : Int) (w : List Int), ¬ (i > 1 ∧ j > 1) →
      damerauInclusion32 s' t' n i j k f g w = some w) := by
  have run : ∀ w : List Int, (s.length + 1) * (t.length + 1) ≤ w.length →
      ∃ r d', dameraulevenshtein32 w (UDF_ARGS.ofStrings s t) = some (r, d') ∧
        d'.length = w.length := by
    intro w hw
    obtain ⟨d', hres, hlen, _⟩ := dameraulevenshtein32_ofStrings s t w hs ht hw (by omega)
    exact ⟨_, d', hres, hlen⟩
  refine ⟨run d hL, ?_, ?_⟩
  · obtain ⟨r, d', h, _⟩ := run (d.take ((s.length + 1) * (t.length + 1)))
      (by rw [List.length_take]; omega)
    exact ⟨r, d', h⟩
  · intro s' t' n i j k f g w hij
    unfold damerauInclusion32
    rw [if_neg hij]
    rfl

theorem dameraulevenshtein32_index_safe_witness :
    ∃ r d', dameraulevenshtein32 (List.replicate 9 0) (UDF_ARGS.ofStrings ['a', 'b'] ['b', 'a'])
      = some (r, d') ∧ d'.length = (List.replicate 9 0).length :=
  (dameraulevenshtein32_index_safe ['a', 'b'] ['b', 'a'] (List.replicate 9 0) (by decide)
    (by decide) (by decide) (by decide)).1

/-- C18: for the call with `int` variables of 32 bits, when the matrix has at
most `2 ^ 31` cells and the workspace holds it, there is a chain of elementary
edits from `s` to `t` whose length is at most the value the call returns; when
the matrix has more than `2 ^ 31` cells (with `n + 1` and `m + 1` below
`2 ^ 31`) the call on two non-empty sequences returns no value. -/
theorem dameraulevenshtein32_achievable {α : Type} [DecidableEq α] (s t : List α)
    (d : List Int) :
    ((s.length + 1) * (t.length + 1) ≤ d.length →
      (s.length + 1) * (t.length + 1) ≤ 2147483648 →
      ∃ r : Nat, distance32 d s t = some (r : Int) ∧ ∃ k, k ≤ r ∧ Chain k s t) ∧
    (s ≠ [] → t ≠ [] → s.length + 1 < 2147483648 → t.length + 1 < 2147483648 →
      2147483648 < (s.length + 1) * (t.length + 1) → distance32 d s t = none) :=
  ⟨fun hL hB => ⟨D s t s.length t.length, distance32_eq s t d hL hB, D s t s.length t.length,
      Nat.le_refl _, (D_isLeast s t).1.toChain⟩,
    fun hs ht hn _ hover => distance32_beyond s t d hs ht hn hover⟩

theorem dameraulevenshtein32_achievable_witness :
    (∃ r : Nat, distance32 (List.replicate 12 0) ['c', 'a'] ['a', 'b', 'c'] = some (r : Int) ∧
      ∃ k, k ≤ r ∧ Chain k ['c', 'a'] ['a', 'b', 'c']) ∧
    distance32 (List.replicate 2147534622 0) (List.replicate 46341 'b')
      (List.replicate 46340 'a') = none :=
  ⟨(dameraulevenshtein32_achievable ['c', 'a'] ['a', 'b', 'c'] (List.replicate 12 0)).1
      (by decide) (by decide),
    (dameraulevenshtein32_achievable (List.replicate 46341 'b') (List.replicate 46340 'a')
      (List.replicate 2147534622 0)).2 (replicate_ne_nil 46341 'b' (by decide))
      (replicate_ne_nil 46340 'a' (by decide)) (by rw [List.length_replicate]; decide)
      (by rw [List.length_replicate]; decide)
      (by rw [List.length_replicate, List.length_replicate]; decide)⟩

end DamerauLevenshtein
